import Mathlib

/-!
Verification of the reference-counted smart pointer in `SmartPointer.cpp`.

The authoritative implementation is the final `SP<T>` class (together with the
counter class `RC`): `RC` keeps an `int count` with `AddRef` (`count++`) and
`Release` (`return --count;`), and `SP<T>` keeps a raw pointer `pData` and a
shared `RC* reference`, incrementing on every construction path and
decrementing in the destructor and in `operator=`, freeing the pointee and the
counter when the count reaches zero.

The embedding is a small heap machine.  Addresses are natural numbers; the
heap holds three association lists: allocated `T` cells (`vals`), allocated
`RC` objects (`rcs`, storing the C++ `int count` as `Int`), and the live `SP`
objects (`handles`).  `freedVals` is a ghost list recording every `delete
pData` performed on a non-null pointer, so that "the owned value is released
exactly once" is a statement about the machine state.  An operation whose C++
execution reads or writes through an invalid handle/pointer has no result
(`Option`, `none`), which is how this embedding marks C++ undefined behavior.
-/

namespace SmartPointer

/-! ### Association-list primitives for the heap -/

def alookup {α : Type} (l : List (Nat × α)) (a : Nat) : Option α :=
  match l with
  | [] => none
  | p :: t => if p.1 = a then some p.2 else alookup t a

def amodify {α : Type} (l : List (Nat × α)) (a : Nat) (f : α → α) : List (Nat × α) :=
  match l with
  | [] => []
  | p :: t => (if p.1 = a then (p.1, f p.2) else p) :: amodify t a f

def aupdate {α : Type} (l : List (Nat × α)) (a : Nat) (v : α) : List (Nat × α) :=
  amodify l a (fun _ => v)

def aerase {α : Type} (l : List (Nat × α)) (a : Nat) : List (Nat × α) :=
  match l with
  | [] => []
  | p :: t => if p.1 = a then aerase t a else p :: aerase t a

/-- Multiplicity of `a` in a list of addresses. -/
def natCount (l : List Nat) (a : Nat) : Nat :=
  match l with
  | [] => 0
  | b :: t => (if b = a then 1 else 0) + natCount t a

/-! ### The counter class `RC` -/

/-- `void AddRef() { count++; }` on the stored `int count`. -/
def RC.AddRef (count : Int) : Int := count + 1

/-- `int Release() { return --count; }`: the new stored count together with the
returned value (both are the pre-decrement count minus one).  There is no check
of any kind: on a zero counter it stores and returns `-1`. -/
def RC.Release (count : Int) : Int × Int := (count - 1, count - 1)

/-! ### The handle class `SP<T>` and the heap -/

/-- The data members of one `SP<T>` object: `T* pData` (`none` is the null
pointer) and `RC* reference` (address of the shared counter). -/
structure SPH where
  pData : Option Nat
  reference : Nat
deriving DecidableEq, Repr

structure Heap (T : Type) where
  vals : List (Nat × T)
  rcs : List (Nat × Int)
  handles : List (Nat × SPH)
  nextVal : Nat
  nextRC : Nat
  nextH : Nat
  freedVals : List Nat

def initial (T : Type) : Heap T := ⟨[], [], [], 0, 0, 0, []⟩

/-- Number of live handles whose `reference` member is the counter at `r`. -/
def rcCount (hs : List (Nat × SPH)) (r : Nat) : Nat :=
  match hs with
  | [] => 0
  | p :: t => (if p.2.reference = r then 1 else 0) + rcCount t r

/-- `reference->AddRef()`: increment the counter object at address `r`. -/
def heapAddRef {T : Type} (s : Heap T) (r : Nat) : Heap T :=
  { s with rcs := amodify s.rcs r RC.AddRef }

/-- `reference->Release()`: decrement the counter object at `r` and yield the
returned value.  Calling through a dangling `RC*` has no defined result. -/
def heapRelease {T : Type} (s : Heap T) (r : Nat) : Option (Int × Heap T) :=
  match alookup s.rcs r with
  | none => none
  | some c => some ((RC.Release c).2, { s with rcs := aupdate s.rcs r (RC.Release c).1 })

/-- `delete pData`: a no-op on the null pointer, otherwise frees the cell and
records the release in the ghost list. -/
def deleteVal {T : Type} (s : Heap T) (pd : Option Nat) : Heap T :=
  match pd with
  | none => s
  | some a => { s with vals := aerase s.vals a, freedVals := a :: s.freedVals }

/-- `delete reference`. -/
def deleteRC {T : Type} (s : Heap T) (r : Nat) : Heap T :=
  { s with rcs := aerase s.rcs r }

/-- `SP() : pData(0), reference(0) { reference = new RC(); reference->AddRef(); }`.
`new RC()` value-initializes the member `int count` to zero; `AddRef` then
raises it to one.  The new handle has a null `pData`. -/
def spDefault {T : Type} (s : Heap T) : Heap T :=
  let r := s.nextRC
  let s1 : Heap T := { s with rcs := (r, 0) :: s.rcs, nextRC := r + 1 }
  let s2 := heapAddRef s1 r
  { s2 with handles := (s2.nextH, ⟨none, r⟩) :: s2.handles, nextH := s2.nextH + 1 }

/-- `SP(T* pValue) : pData(pValue), reference(0) { reference = new RC(); reference->AddRef(); }`
applied to `new T(v)`: a fresh value cell, a fresh counter raised to one. -/
def spFrom {T : Type} (s : Heap T) (v : T) : Heap T :=
  let a := s.nextVal
  let r := s.nextRC
  let s1 : Heap T :=
    { s with vals := (a, v) :: s.vals, nextVal := a + 1, rcs := (r, 0) :: s.rcs, nextRC := r + 1 }
  let s2 := heapAddRef s1 r
  { s2 with handles := (s2.nextH, ⟨some a, r⟩) :: s2.handles, nextH := s2.nextH + 1 }

/-- `SP(const SP<T>& sp) : pData(sp.pData), reference(sp.reference) { reference->AddRef(); }`:
duplicate the handle at `src`. -/
def spCopy {T : Type} (s : Heap T) (src : Nat) : Option (Heap T) :=
  match alookup s.handles src with
  | none => none
  | some sp =>
    let s1 := heapAddRef s sp.reference
    some { s1 with handles := (s1.nextH, sp) :: s1.handles, nextH := s1.nextH + 1 }

/-- `~SP() { if(reference->Release() == 0) { delete pData; delete reference; } }`
together with the removal of the handle object itself. -/
def spDestroy {T : Type} (s : Heap T) (hid : Nat) : Option (Heap T) :=
  match alookup s.handles hid with
  | none => none
  | some sp =>
    match heapRelease s sp.reference with
    | none => none
    | some (ret, s1) =>
      let s2 := if ret = 0 then deleteRC (deleteVal s1 sp.pData) sp.reference else s1
      some { s2 with handles := aerase s2.handles hid }

/-- `operator=`: the guard `this != &sp` compares the addresses of the two
handle objects; otherwise release the old binding (freeing it when the count
hits zero), copy `sp.pData` and `sp.reference`, and `AddRef` the new counter. -/
def spAssign {T : Type} (s : Heap T) (tgt src : Nat) : Option (Heap T) :=
  match alookup s.handles tgt, alookup s.handles src with
  | some tsp, some ssp =>
    if tgt = src then some s
    else
      match heapRelease s tsp.reference with
      | none => none
      | some (ret, s1) =>
        let s2 := if ret = 0 then deleteRC (deleteVal s1 tsp.pData) tsp.reference else s1
        let s3 : Heap T := { s2 with handles := aupdate s2.handles tgt ⟨ssp.pData, ssp.reference⟩ }
        some (heapAddRef s3 ssp.reference)
  | _, _ => none

/-- `T& operator*() { return *pData; }`: the read through the stored pointer.
The body performs no check whatsoever; `none` means the read goes through a
null or dangling pointer and has no defined result (C++ undefined behavior). -/
def derefStar {T : Type} (s : Heap T) (hid : Nat) : Option T :=
  match alookup s.handles hid with
  | none => none
  | some sp =>
    match sp.pData with
    | none => none
    | some a => alookup s.vals a

/-- `*h = v`: write the pointee through a handle; undefined through a null or
dangling pointer. -/
def spWrite {T : Type} (s : Heap T) (hid : Nat) (v : T) : Option (Heap T) :=
  match alookup s.handles hid with
  | none => none
  | some sp =>
    match sp.pData with
    | none => none
    | some a =>
      match alookup s.vals a with
      | none => none
      | some _ => some { s with vals := aupdate s.vals a v }

inductive NullFault where
  | nullAccess
deriving DecidableEq, Repr

/-- Modelled from the spec: the dereference the spec describes, which detects a
null `pData` deterministically and fails with a null-access contract-violation
error instead of reading through the null pointer.  (The source's `operator*`
has no such check; this definition exists to compare the two.) -/
def derefCheckedSpec {T : Type} (s : Heap T) (hid : Nat) : Option (Except NullFault T) :=
  match alookup s.handles hid with
  | none => none
  | some sp =>
    match sp.pData with
    | none => some (Except.error NullFault.nullAccess)
    | some a => (alookup s.vals a).map Except.ok

/-- Modelled from the spec: the reassignment algorithm of §4.2, whose first
step is an identity check on the *binding* (same value pointer and same
counter pointer) rather than on the handle objects; steps 2-4 are the same
release/copy/increment sequence the source performs. -/
def assignSpec {T : Type} (s : Heap T) (tgt src : Nat) : Option (Heap T) :=
  match alookup s.handles tgt, alookup s.handles src with
  | some tsp, some ssp =>
    if tsp.pData = ssp.pData ∧ tsp.reference = ssp.reference then some s
    else
      match heapRelease s tsp.reference with
      | none => none
      | some (ret, s1) =>
        let s2 := if ret = 0 then deleteRC (deleteVal s1 tsp.pData) tsp.reference else s1
        let s3 : Heap T := { s2 with handles := aupdate s2.handles tgt ⟨ssp.pData, ssp.reference⟩ }
        some (heapAddRef s3 ssp.reference)
  | _, _ => none

/-! ### Client programs as operation sequences -/

inductive Op (T : Type) where
  | newDefault
  | newFrom (v : T)
  | newCopy (src : Nat)
  | destroy (hid : Nat)
  | assign (tgt src : Nat)
  | write (hid : Nat) (v : T)

def step {T : Type} (s : Heap T) : Op T → Option (Heap T)
  | Op.newDefault => some (spDefault s)
  | Op.newFrom v => some (spFrom s v)
  | Op.newCopy src => spCopy s src
  | Op.destroy hid => spDestroy s hid
  | Op.assign tgt src => spAssign s tgt src
  | Op.write hid v => spWrite s hid v

def run {T : Type} (s : Heap T) : List (Op T) → Option (Heap T)
  | [] => some s
  | op :: ops =>
    match step s op with
    | none => none
    | some s1 => run s1 ops

/-! ### Concrete states used to exercise the theorems -/

def sAfterDefault : Heap Int := spDefault (initial Int)

def sTwoShared : Heap Int :=
  (run (initial Int) [Op.newFrom 5, Op.newCopy 0]).getD (initial Int)

def sTwoVals : Heap Int :=
  (run (initial Int) [Op.newFrom 1, Op.newFrom 2]).getD (initial Int)

def sOne : Heap Int := (run (initial Int) [Op.newFrom 3]).getD (initial Int)

def sOneCopy : Heap Int := (spCopy sOne 0).getD (initial Int)

def sOneNine : Heap Int :=
  (run (initial Int) [Op.newFrom 9, Op.destroy 0]).getD (initial Int)

def sOneFive : Heap Int := (run (initial Int) [Op.newFrom 5]).getD (initial Int)

def sOneFiveGone : Heap Int := (spDestroy sOneFive 0).getD (initial Int)

def sCopySeven : Heap Int :=
  (run (initial Int) [Op.newFrom 7, Op.newCopy 0]).getD (initial Int)

/-! ### Lemmas about the association-list primitives -/

theorem alookup_amodify {α : Type} (l : List (Nat × α)) (a : Nat) (f : α → α) (b : Nat) :
    alookup (amodify l a f) b = if b = a then (alookup l a).map f else alookup l b := by
  induction l with
  | nil => simp [amodify, alookup]
  | cons p t ih =>
    simp only [amodify, alookup]
    by_cases hpa : p.1 = a
    · by_cases hba : b = a
      · subst hba
        simp [hpa, alookup]
      · have hpb : ¬ p.1 = b := by omega
        have hab : ¬ a = b := by omega
        simp [hpa, hba, hpb, hab, alookup, ih]
    · by_cases hpb : p.1 = b
      · have hba : ¬ b = a := by omega
        simp [hpa, hpb, hba, alookup]
      · simp [hpa, hpb, alookup, ih]

theorem alookup_aupdate {α : Type} (l : List (Nat × α)) (a : Nat) (v : α) (b : Nat) :
    alookup (aupdate l a v) b =
      if b = a then (alookup l a).map (fun _ => v) else alookup l b :=
  alookup_amodify l a (fun _ => v) b

theorem alookup_aerase {α : Type} (l : List (Nat × α)) (a b : Nat) :
    alookup (aerase l a) b = if b = a then none else alookup l b := by
  induction l with
  | nil => simp [aerase, alookup]
  | cons p t ih =>
    simp only [aerase]
    by_cases hpa : p.1 = a
    · by_cases hba : b = a
      · subst hba
        simp [hpa, ih]
      · have hpb : ¬ p.1 = b := by omega
        have hab : ¬ a = b := by omega
        simp [hpa, hba, hpb, hab, alookup, ih]
    · by_cases hpb : p.1 = b
      · have hba : ¬ b = a := by omega
        simp [hpa, hpb, hba, alookup, ih]
      · simp [hpa, hpb, alookup, ih]

theorem alookup_isSome_iff_mem_keys {α : Type} (l : List (Nat × α)) (a : Nat) :
    (alookup l a).isSome ↔ a ∈ l.map Prod.fst := by
  induction l with
  | nil => simp [alookup]
  | cons p t ih =>
    by_cases hpa : p.1 = a <;> simp [alookup, hpa, ih]
    omega

theorem keys_amodify {α : Type} (l : List (Nat × α)) (a : Nat) (f : α → α) :
    (amodify l a f).map Prod.fst = l.map Prod.fst := by
  induction l with
  | nil => rfl
  | cons p t ih =>
    simp only [amodify]
    by_cases hpa : p.1 = a <;> simp [hpa, ih]

theorem aerase_sublist {α : Type} (l : List (Nat × α)) (a : Nat) :
    List.Sublist (aerase l a) l := by
  induction l with
  | nil => simp [aerase]
  | cons p t ih =>
    simp only [aerase]
    by_cases hpa : p.1 = a
    · simpa [hpa] using ih.cons p
    · simpa [hpa] using ih.cons₂ p

theorem keys_aerase_nodup {α : Type} {l : List (Nat × α)} (a : Nat)
    (h : (l.map Prod.fst).Nodup) : ((aerase l a).map Prod.fst).Nodup :=
  h.sublist ((aerase_sublist l a).map Prod.fst)

/-! ### Lemmas about `rcCount` -/

theorem rcCount_pos {hs : List (Nat × SPH)} {i : Nat} {sp : SPH} {r : Nat}
    (h : alookup hs i = some sp) (hr : sp.reference = r) : 0 < rcCount hs r := by
  induction hs with
  | nil => simp [alookup] at h
  | cons p t ih =>
    simp only [alookup] at h
    simp only [rcCount]
    by_cases hpi : p.1 = i
    · simp [hpi] at h
      subst h
      simp [hr]
    · have := ih (by simpa [hpi] using h)
      omega

theorem rcCount_ge_two {hs : List (Nat × SPH)} {i j : Nat} {sp1 sp2 : SPH} {r : Nat}
    (h1 : alookup hs i = some sp1) (h2 : alookup hs j = some sp2) (hij : i ≠ j)
    (hr1 : sp1.reference = r) (hr2 : sp2.reference = r) : 2 ≤ rcCount hs r := by
  induction hs with
  | nil => simp [alookup] at h1
  | cons p t ih =>
    simp only [alookup] at h1 h2
    simp only [rcCount]
    by_cases hpi : p.1 = i
    · simp [hpi] at h1
      subst h1
      have hj : alookup t j = some sp2 := by
        have : ¬ p.1 = j := by omega
        simpa [this] using h2
      have := rcCount_pos hj hr2
      simp [hr1]
      omega
    · by_cases hpj : p.1 = j
      · simp [hpj] at h2
        subst h2
        have hi : alookup t i = some sp1 := by simpa [hpi] using h1
        have := rcCount_pos hi hr1
        simp [hr2]
        omega
      · have := ih (by simpa [hpi] using h1) (by simpa [hpj] using h2)
        omega

theorem rcCount_eq_zero {hs : List (Nat × SPH)} {r : Nat}
    (nd : (hs.map Prod.fst).Nodup)
    (h : ∀ i sp, alookup hs i = some sp → sp.reference ≠ r) : rcCount hs r = 0 := by
  induction hs with
  | nil => rfl
  | cons p t ih =>
    simp only [List.map_cons, List.nodup_cons] at nd
    simp only [rcCount]
    have hhead : p.2.reference ≠ r := by
      have : alookup (p :: t) p.1 = some p.2 := by simp [alookup]
      exact h p.1 p.2 this
    have htail : rcCount t r = 0 := by
      refine ih nd.2 ?_
      intro i sp hi
      have hne : ¬ p.1 = i := by
        intro hpi
        have : i ∈ t.map Prod.fst := (alookup_isSome_iff_mem_keys t i).1 (by simp [hi])
        exact nd.1 (hpi ▸ this)
      exact h i sp (by simpa [alookup, hne] using hi)
    simp [hhead, htail]

theorem exists_of_rcCount_pos {hs : List (Nat × SPH)} {r : Nat}
    (nd : (hs.map Prod.fst).Nodup) (h : 0 < rcCount hs r) :
    ∃ i sp, alookup hs i = some sp ∧ sp.reference = r := by
  induction hs with
  | nil => simp [rcCount] at h
  | cons p t ih =>
    simp only [List.map_cons, List.nodup_cons] at nd
    simp only [rcCount] at h
    by_cases hp : p.2.reference = r
    · exact ⟨p.1, p.2, by simp [alookup], hp⟩
    · simp only [hp, if_false] at h
      obtain ⟨i, sp, hi, hr⟩ := ih nd.2 (by omega)
      refine ⟨i, sp, ?_, hr⟩
      have hne : ¬ p.1 = i := by
        intro hpi
        have : i ∈ t.map Prod.fst := (alookup_isSome_iff_mem_keys t i).1 (by simp [hi])
        exact nd.1 (hpi ▸ this)
      simpa [alookup, hne] using hi

theorem aerase_of_fresh {α : Type} {l : List (Nat × α)} {a : Nat}
    (h : a ∉ l.map Prod.fst) : aerase l a = l := by
  induction l with
  | nil => rfl
  | cons p t ih =>
    simp only [List.map_cons, List.mem_cons, not_or] at h
    have hpa : ¬ p.1 = a := fun hh => h.1 hh.symm
    simp [aerase, hpa, ih h.2]

theorem amodify_of_fresh {α : Type} {l : List (Nat × α)} {a : Nat} (f : α → α)
    (h : a ∉ l.map Prod.fst) : amodify l a f = l := by
  induction l with
  | nil => rfl
  | cons p t ih =>
    simp only [List.map_cons, List.mem_cons, not_or] at h
    have hpa : ¬ p.1 = a := fun hh => h.1 hh.symm
    simp [amodify, hpa, ih h.2]

theorem rcCount_aerase {hs : List (Nat × SPH)} {hid : Nat} {sp : SPH} (r : Nat)
    (nd : (hs.map Prod.fst).Nodup) (h : alookup hs hid = some sp) :
    rcCount hs r = rcCount (aerase hs hid) r + (if sp.reference = r then 1 else 0) := by
  induction hs with
  | nil => simp [alookup] at h
  | cons p t ih =>
    simp only [List.map_cons, List.nodup_cons] at nd
    simp only [alookup] at h
    simp only [rcCount, aerase]
    by_cases hpi : p.1 = hid
    · simp only [hpi, if_true] at h ⊢
      have h2 : sp = p.2 := (Option.some.inj h).symm
      have hfresh : hid ∉ t.map Prod.fst := hpi ▸ nd.1
      rw [aerase_of_fresh hfresh, h2]
      omega
    · simp only [hpi, if_false] at h ⊢
      have := ih nd.2 h
      simp only [rcCount]
      omega

theorem rcCount_aupdate {hs : List (Nat × SPH)} {t0 : Nat} {tsp : SPH} (v : SPH) (r : Nat)
    (nd : (hs.map Prod.fst).Nodup) (h : alookup hs t0 = some tsp) :
    rcCount (aupdate hs t0 v) r + (if tsp.reference = r then 1 else 0)
      = rcCount hs r + (if v.reference = r then 1 else 0) := by
  induction hs with
  | nil => simp [alookup] at h
  | cons p t ih =>
    simp only [List.map_cons, List.nodup_cons] at nd
    simp only [alookup] at h
    simp only [aupdate, amodify, rcCount]
    by_cases hpi : p.1 = t0
    · simp only [hpi, if_true] at h ⊢
      have h2 : tsp = p.2 := (Option.some.inj h).symm
      have hfresh : t0 ∉ t.map Prod.fst := hpi ▸ nd.1
      rw [amodify_of_fresh _ hfresh, h2]
      omega
    · simp only [hpi, if_false] at h ⊢
      have := ih nd.2 h
      simp only [aupdate, rcCount] at this
      omega

theorem alookup_cons {α : Type} (k : Nat) (x : α) (l : List (Nat × α)) (b : Nat) :
    alookup ((k, x) :: l) b = if k = b then some x else alookup l b := rfl

theorem alookup_of_bound {α : Type} {l : List (Nat × α)} {n : Nat}
    (h : ∀ b, (alookup l b).isSome → b < n) : alookup l n = none := by
  cases hl : alookup l n with
  | none => rfl
  | some v => exact absurd (h n (by simp [hl])) (lt_irrefl n)

theorem not_mem_keys_of_alookup_none {α : Type} {l : List (Nat × α)} {a : Nat}
    (h : alookup l a = none) : a ∉ l.map Prod.fst := by
  rw [← alookup_isSome_iff_mem_keys]
  simp [h]

theorem natCount_eq_zero {l : List Nat} {a : Nat} (h : a ∉ l) : natCount l a = 0 := by
  induction l with
  | nil => rfl
  | cons b t ih =>
    simp only [List.mem_cons, not_or] at h
    have hba : ¬ b = a := fun hh => h.1 hh.symm
    simp [natCount, hba, ih h.2]

theorem natCount_pos_of_mem {l : List Nat} {a : Nat} (h : a ∈ l) : 0 < natCount l a := by
  induction l with
  | nil => simp at h
  | cons b t ih =>
    simp only [natCount]
    rcases List.mem_cons.1 h with h1 | h2
    · simp [h1]
    · have := ih h2
      omega

theorem isSome_map_opt {α β : Type} (o : Option α) (f : α → β) :
    (o.map f).isSome = o.isSome := by cases o <;> rfl

theorem isSome_amodify {α : Type} (l : List (Nat × α)) (a : Nat) (f : α → α) (b : Nat) :
    (alookup (amodify l a f) b).isSome = (alookup l b).isSome := by
  rw [alookup_amodify]
  by_cases h : b = a
  · rw [if_pos h, isSome_map_opt, h]
  · rw [if_neg h]

theorem isSome_aupdate {α : Type} (l : List (Nat × α)) (a : Nat) (v : α) (b : Nat) :
    (alookup (aupdate l a v) b).isSome = (alookup l b).isSome :=
  isSome_amodify l a (fun _ => v) b

theorem rcCount_cons (k : Nat) (x : SPH) (t : List (Nat × SPH)) (r : Nat) :
    rcCount ((k, x) :: t) r = (if x.reference = r then 1 else 0) + rcCount t r := rfl

/-! ### The heap invariant

All the facts about a reachable heap that the correctness claims rest on:
keys are unique and below the allocation cursors, every live handle's counter
is allocated, every counter stores exactly the number of live handles bound to
it, handles sharing a counter share their value pointer, a value cell is owned
by exactly one counter group, and a value address is freed at most once and
never while a live handle points at it. -/

structure Inv {T : Type} (s : Heap T) : Prop where
  ndV : (s.vals.map Prod.fst).Nodup
  ndR : (s.rcs.map Prod.fst).Nodup
  ndH : (s.handles.map Prod.fst).Nodup
  bV : ∀ a, (alookup s.vals a).isSome → a < s.nextVal
  bR : ∀ r, (alookup s.rcs r).isSome → r < s.nextRC
  bH : ∀ i, (alookup s.handles i).isSome → i < s.nextH
  bF : ∀ a ∈ s.freedVals, a < s.nextVal
  refAlloc : ∀ i sp, alookup s.handles i = some sp → (alookup s.rcs sp.reference).isSome
  counts : ∀ r c, alookup s.rcs r = some c → c = (rcCount s.handles r : Int)
  pAlloc : ∀ i sp, alookup s.handles i = some sp →
    ∀ a, sp.pData = some a → (alookup s.vals a).isSome
  valLive : ∀ a, (alookup s.vals a).isSome →
    ∃ i sp, alookup s.handles i = some sp ∧ sp.pData = some a
  coh : ∀ i p j q, alookup s.handles i = some p → alookup s.handles j = some q →
    p.reference = q.reference → p.pData = q.pData
  inj : ∀ i p j q a, alookup s.handles i = some p → alookup s.handles j = some q →
    p.pData = some a → q.pData = some a → p.reference = q.reference
  freedOnce : ∀ a, natCount s.freedVals a ≤ 1
  freedDead : ∀ a ∈ s.freedVals, alookup s.vals a = none
  valFate : ∀ a, a < s.nextVal → (alookup s.vals a).isSome ∨ a ∈ s.freedVals

theorem inv_initial (T : Type) : Inv (initial T) := by
  constructor <;> intros <;> simp_all [initial, alookup, rcCount, natCount]

/-- No live handle is bound to a counter address that is not yet allocated. -/
theorem rcCount_fresh {T : Type} {s : Heap T} (hI : Inv s) {r : Nat}
    (hr : s.nextRC ≤ r) : rcCount s.handles r = 0 := by
  refine rcCount_eq_zero hI.ndH ?_
  intro i sp hi
  have := hI.bR sp.reference (hI.refAlloc i sp hi)
  omega

/-! ### Invariant preservation -/

theorem spDefault_eq {T : Type} (s : Heap T) (hfresh : s.nextRC ∉ s.rcs.map Prod.fst) :
    spDefault s = { vals := s.vals, rcs := (s.nextRC, (1 : Int)) :: s.rcs,
                    handles := (s.nextH, ⟨none, s.nextRC⟩) :: s.handles,
                    nextVal := s.nextVal, nextRC := s.nextRC + 1, nextH := s.nextH + 1,
                    freedVals := s.freedVals } := by
  show ({ vals := s.vals, rcs := amodify ((s.nextRC, 0) :: s.rcs) s.nextRC RC.AddRef,
          handles := (s.nextH, ⟨none, s.nextRC⟩) :: s.handles,
          nextVal := s.nextVal, nextRC := s.nextRC + 1, nextH := s.nextH + 1,
          freedVals := s.freedVals } : Heap T) = _
  rw [show amodify ((s.nextRC, (0 : Int)) :: s.rcs) s.nextRC RC.AddRef
        = (s.nextRC, RC.AddRef 0) :: amodify s.rcs s.nextRC RC.AddRef from by simp [amodify],
      amodify_of_fresh _ hfresh]
  norm_num [RC.AddRef]

theorem spFrom_eq {T : Type} (s : Heap T) (v : T) (hfresh : s.nextRC ∉ s.rcs.map Prod.fst) :
    spFrom s v = { vals := (s.nextVal, v) :: s.vals, rcs := (s.nextRC, (1 : Int)) :: s.rcs,
                   handles := (s.nextH, ⟨some s.nextVal, s.nextRC⟩) :: s.handles,
                   nextVal := s.nextVal + 1, nextRC := s.nextRC + 1, nextH := s.nextH + 1,
                   freedVals := s.freedVals } := by
  show ({ vals := (s.nextVal, v) :: s.vals,
          rcs := amodify ((s.nextRC, 0) :: s.rcs) s.nextRC RC.AddRef,
          handles := (s.nextH, ⟨some s.nextVal, s.nextRC⟩) :: s.handles,
          nextVal := s.nextVal + 1, nextRC := s.nextRC + 1, nextH := s.nextH + 1,
          freedVals := s.freedVals } : Heap T) = _
  rw [show amodify ((s.nextRC, (0 : Int)) :: s.rcs) s.nextRC RC.AddRef
        = (s.nextRC, RC.AddRef 0) :: amodify s.rcs s.nextRC RC.AddRef from by simp [amodify],
      amodify_of_fresh _ hfresh]
  norm_num [RC.AddRef]

theorem inv_spDefault {T : Type} {s : Heap T} (hI : Inv s) : Inv (spDefault s) := by
  have hfreshR : alookup s.rcs s.nextRC = none := alookup_of_bound hI.bR
  have hfreshH : alookup s.handles s.nextH = none := alookup_of_bound hI.bH
  rw [spDefault_eq s (not_mem_keys_of_alookup_none hfreshR)]
  constructor
  case ndV => exact hI.ndV
  case ndR =>
    dsimp only
    rw [List.map_cons]
    exact List.nodup_cons.2 ⟨not_mem_keys_of_alookup_none hfreshR, hI.ndR⟩
  case ndH =>
    dsimp only
    rw [List.map_cons]
    exact List.nodup_cons.2 ⟨not_mem_keys_of_alookup_none hfreshH, hI.ndH⟩
  case bV => exact hI.bV
  case bR =>
    intro r hr
    dsimp only at hr ⊢
    simp only [alookup_cons] at hr
    by_cases h : s.nextRC = r
    · omega
    · have := hI.bR r (by simpa [h] using hr)
      omega
  case bH =>
    intro i hi
    dsimp only at hi ⊢
    simp only [alookup_cons] at hi
    by_cases h : s.nextH = i
    · omega
    · have := hI.bH i (by simpa [h] using hi)
      omega
  case bF =>
    intro a ha
    exact hI.bF a ha
  case refAlloc =>
    intro i sp hi
    dsimp only at hi ⊢
    simp only [alookup_cons] at hi ⊢
    by_cases h : s.nextH = i
    · simp only [h, if_pos rfl] at hi
      cases hi
      simp
    · have hi2 := hI.refAlloc i sp (by simpa [h] using hi)
      by_cases h2 : s.nextRC = sp.reference
      · simp [h2]
      · simpa [h2] using hi2
  case counts =>
    intro r c hc
    dsimp only at hc ⊢
    simp only [alookup_cons] at hc
    by_cases h : s.nextRC = r
    · simp only [h, if_pos rfl] at hc
      cases hc
      subst h
      have h0 : rcCount s.handles s.nextRC = 0 := rcCount_fresh hI (le_refl _)
      simp [rcCount, h0]
    · have hc2 := hI.counts r c (by simpa [h] using hc)
      have hne : ¬ (⟨none, s.nextRC⟩ : SPH).reference = r := by simpa using h
      simp [rcCount, hne, hc2]
  case pAlloc =>
    intro i sp hi a ha
    dsimp only at hi ⊢
    simp only [alookup_cons] at hi
    by_cases h : s.nextH = i
    · simp only [h, if_pos rfl] at hi
      cases hi
      simp at ha
    · exact hI.pAlloc i sp (by simpa [h] using hi) a ha
  case valLive =>
    intro a ha
    dsimp only at ha ⊢
    obtain ⟨i, sp, hi, hp⟩ := hI.valLive a ha
    have hne : ¬ s.nextH = i := by
      have := hI.bH i (by simp [hi])
      omega
    exact ⟨i, sp, by simpa [alookup_cons, hne] using hi, hp⟩
  case coh =>
    intro i p j q hi hj hr
    dsimp only at hi hj
    simp only [alookup_cons] at hi hj
    by_cases h1 : s.nextH = i <;> by_cases h2 : s.nextH = j
    · simp only [h1, if_pos rfl] at hi
      simp only [h2, if_pos rfl] at hj
      cases hi; cases hj; rfl
    · simp only [h1, if_pos rfl] at hi
      cases hi
      have hj2 := hI.refAlloc j q (by simpa [h2] using hj)
      have := hI.bR q.reference hj2
      simp only [SPH.reference] at hr
      omega
    · simp only [h2, if_pos rfl] at hj
      cases hj
      have hi2 := hI.refAlloc i p (by simpa [h1] using hi)
      have := hI.bR p.reference hi2
      simp only [SPH.reference] at hr
      omega
    · exact hI.coh i p j q (by simpa [h1] using hi) (by simpa [h2] using hj) hr
  case inj =>
    intro i p j q a hi hj hp hq
    dsimp only at hi hj
    simp only [alookup_cons] at hi hj
    by_cases h1 : s.nextH = i
    · simp only [h1, if_pos rfl] at hi
      cases hi
      simp at hp
    · by_cases h2 : s.nextH = j
      · simp only [h2, if_pos rfl] at hj
        cases hj
        simp at hq
      · exact hI.inj i p j q a (by simpa [h1] using hi) (by simpa [h2] using hj) hp hq
  case freedOnce =>
    intro a
    exact hI.freedOnce a
  case freedDead =>
    intro a ha
    exact hI.freedDead a ha
  case valFate =>
    intro a ha
    exact hI.valFate a ha

theorem inv_spFrom {T : Type} {s : Heap T} (hI : Inv s) (v : T) : Inv (spFrom s v) := by
  have hfreshR : alookup s.rcs s.nextRC = none := alookup_of_bound hI.bR
  have hfreshH : alookup s.handles s.nextH = none := alookup_of_bound hI.bH
  have hfreshV : alookup s.vals s.nextVal = none := alookup_of_bound hI.bV
  rw [spFrom_eq s v (not_mem_keys_of_alookup_none hfreshR)]
  constructor
  case ndV =>
    dsimp only
    rw [List.map_cons]
    exact List.nodup_cons.2 ⟨not_mem_keys_of_alookup_none hfreshV, hI.ndV⟩
  case ndR =>
    dsimp only
    rw [List.map_cons]
    exact List.nodup_cons.2 ⟨not_mem_keys_of_alookup_none hfreshR, hI.ndR⟩
  case ndH =>
    dsimp only
    rw [List.map_cons]
    exact List.nodup_cons.2 ⟨not_mem_keys_of_alookup_none hfreshH, hI.ndH⟩
  case bV =>
    intro a ha
    dsimp only at ha ⊢
    simp only [alookup_cons] at ha
    by_cases h : s.nextVal = a
    · omega
    · have := hI.bV a (by simpa [h] using ha)
      omega
  case bR =>
    intro r hr
    dsimp only at hr ⊢
    simp only [alookup_cons] at hr
    by_cases h : s.nextRC = r
    · omega
    · have := hI.bR r (by simpa [h] using hr)
      omega
  case bH =>
    intro i hi
    dsimp only at hi ⊢
    simp only [alookup_cons] at hi
    by_cases h : s.nextH = i
    · omega
    · have := hI.bH i (by simpa [h] using hi)
      omega
  case bF =>
    intro a ha
    dsimp only at ha ⊢
    have := hI.bF a ha
    omega
  case refAlloc =>
    intro i sp hi
    dsimp only at hi ⊢
    simp only [alookup_cons] at hi ⊢
    by_cases h : s.nextH = i
    · simp only [h, if_pos rfl] at hi
      cases hi
      simp
    · have hi2 := hI.refAlloc i sp (by simpa [h] using hi)
      by_cases h2 : s.nextRC = sp.reference
      · simp [h2]
      · simpa [h2] using hi2
  case counts =>
    intro r c hc
    dsimp only at hc ⊢
    simp only [alookup_cons] at hc
    by_cases h : s.nextRC = r
    · simp only [h, if_pos rfl] at hc
      cases hc
      subst h
      have h0 : rcCount s.handles s.nextRC = 0 := rcCount_fresh hI (le_refl _)
      simp [rcCount, h0]
    · have hc2 := hI.counts r c (by simpa [h] using hc)
      have hne : ¬ (⟨some s.nextVal, s.nextRC⟩ : SPH).reference = r := by simpa using h
      simp [rcCount, hne, hc2]
  case pAlloc =>
    intro i sp hi a ha
    dsimp only at hi ⊢
    simp only [alookup_cons] at hi ⊢
    by_cases h : s.nextH = i
    · simp only [h, if_pos rfl] at hi
      cases hi
      simp only [SPH.pData] at ha
      cases ha
      simp
    · have := hI.pAlloc i sp (by simpa [h] using hi) a ha
      by_cases h2 : s.nextVal = a
      · simp [h2]
      · simpa [h2] using this
  case valLive =>
    intro a ha
    dsimp only at ha ⊢
    simp only [alookup_cons] at ha ⊢
    by_cases h : s.nextVal = a
    · refine ⟨s.nextH, ⟨some s.nextVal, s.nextRC⟩, by simp, by simp [h]⟩
    · obtain ⟨i, sp, hi, hp⟩ := hI.valLive a (by simpa [h] using ha)
      have hne : ¬ s.nextH = i := by
        have := hI.bH i (by simp [hi])
        omega
      exact ⟨i, sp, by simpa [hne] using hi, hp⟩
  case coh =>
    intro i p j q hi hj hr
    dsimp only at hi hj
    simp only [alookup_cons] at hi hj
    by_cases h1 : s.nextH = i <;> by_cases h2 : s.nextH = j
    · simp only [h1, if_pos rfl] at hi
      simp only [h2, if_pos rfl] at hj
      cases hi; cases hj; rfl
    · simp only [h1, if_pos rfl] at hi
      cases hi
      have hj2 := hI.refAlloc j q (by simpa [h2] using hj)
      have := hI.bR q.reference hj2
      simp only [SPH.reference] at hr
      omega
    · simp only [h2, if_pos rfl] at hj
      cases hj
      have hi2 := hI.refAlloc i p (by simpa [h1] using hi)
      have := hI.bR p.reference hi2
      simp only [SPH.reference] at hr
      omega
    · exact hI.coh i p j q (by simpa [h1] using hi) (by simpa [h2] using hj) hr
  case inj =>
    intro i p j q a hi hj hp hq
    dsimp only at hi hj
    simp only [alookup_cons] at hi hj
    by_cases h1 : s.nextH = i <;> by_cases h2 : s.nextH = j
    · simp only [h1, if_pos rfl] at hi
      simp only [h2, if_pos rfl] at hj
      cases hi; cases hj; rfl
    · simp only [h1, if_pos rfl] at hi
      cases hi
      simp only [SPH.pData] at hp
      cases hp
      have := hI.bV s.nextVal (hI.pAlloc j q (by simpa [h2] using hj) s.nextVal hq)
      omega
    · simp only [h2, if_pos rfl] at hj
      cases hj
      simp only [SPH.pData] at hq
      cases hq
      have := hI.bV s.nextVal (hI.pAlloc i p (by simpa [h1] using hi) s.nextVal hp)
      omega
    · exact hI.inj i p j q a (by simpa [h1] using hi) (by simpa [h2] using hj) hp hq
  case freedOnce =>
    intro a
    exact hI.freedOnce a
  case freedDead =>
    intro a ha
    dsimp only at ha ⊢
    have hb := hI.bF a ha
    have hne : ¬ s.nextVal = a := by omega
    simp only [alookup_cons, hne, if_neg hne]
    exact hI.freedDead a ha
  case valFate =>
    intro a ha
    dsimp only at ha ⊢
    simp only [alookup_cons]
    by_cases h : s.nextVal = a
    · left
      simp [h]
    · rcases hI.valFate a (by omega) with h2 | h2
      · left
        simpa [h] using h2
      · right
        exact h2

theorem spCopy_eq {T : Type} {s : Heap T} {src : Nat} {sp : SPH}
    (h : alookup s.handles src = some sp) :
    spCopy s src = some { vals := s.vals, rcs := amodify s.rcs sp.reference RC.AddRef,
                          handles := (s.nextH, sp) :: s.handles,
                          nextVal := s.nextVal, nextRC := s.nextRC, nextH := s.nextH + 1,
                          freedVals := s.freedVals } := by
  simp [spCopy, h, heapAddRef]

theorem inv_spCopy {T : Type} {s s' : Heap T} (hI : Inv s) {src : Nat}
    (h : spCopy s src = some s') : Inv s' := by
  cases hsp : alookup s.handles src with
  | none => simp [spCopy, hsp] at h
  | some sp =>
  rw [spCopy_eq hsp] at h
  cases h
  have hfreshH : alookup s.handles s.nextH = none := alookup_of_bound hI.bH
  constructor
  case ndV => exact hI.ndV
  case ndR =>
    dsimp only
    rw [keys_amodify]
    exact hI.ndR
  case ndH =>
    dsimp only
    rw [List.map_cons]
    exact List.nodup_cons.2 ⟨not_mem_keys_of_alookup_none hfreshH, hI.ndH⟩
  case bV => exact hI.bV
  case bR =>
    intro r hr
    dsimp only at hr ⊢
    rw [alookup_amodify] at hr
    by_cases h2 : r = sp.reference
    · rw [if_pos h2, isSome_map_opt] at hr
      subst h2
      exact hI.bR _ hr
    · rw [if_neg h2] at hr
      exact hI.bR r hr
  case bH =>
    intro i hi
    dsimp only at hi ⊢
    simp only [alookup_cons] at hi
    by_cases h2 : s.nextH = i
    · omega
    · have := hI.bH i (by simpa [h2] using hi)
      omega
  case bF =>
    intro a ha
    exact hI.bF a ha
  case refAlloc =>
    intro i q hi
    dsimp only at hi ⊢
    simp only [alookup_cons] at hi
    rw [alookup_amodify]
    have hq : (alookup s.rcs q.reference).isSome := by
      by_cases h2 : s.nextH = i
      · simp only [h2, if_pos rfl] at hi
        cases hi
        exact hI.refAlloc src sp hsp
      · exact hI.refAlloc i q (by simpa [h2] using hi)
    by_cases h3 : q.reference = sp.reference
    · rw [if_pos h3, isSome_map_opt]
      rw [h3] at hq
      exact hq
    · rw [if_neg h3]
      exact hq
  case counts =>
    intro r c hc
    dsimp only at hc ⊢
    rw [alookup_amodify] at hc
    by_cases h2 : r = sp.reference
    · rw [if_pos h2] at hc
      cases hold : alookup s.rcs sp.reference with
      | none =>
        rw [hold] at hc
        simp at hc
      | some c0 =>
        rw [hold, Option.map_some'] at hc
        cases hc
        have hc0 := hI.counts sp.reference c0 hold
        rw [rcCount_cons, if_pos h2.symm, RC.AddRef, h2, hc0]
        push_cast
        omega
    · rw [if_neg h2] at hc
      have hc2 := hI.counts r c hc
      have hne : ¬ sp.reference = r := fun hh => h2 hh.symm
      rw [rcCount_cons, if_neg hne, hc2]
      push_cast
      omega
  case pAlloc =>
    intro i q hi a ha
    dsimp only at hi ⊢
    simp only [alookup_cons] at hi
    by_cases h2 : s.nextH = i
    · simp only [h2, if_pos rfl] at hi
      cases hi
      exact hI.pAlloc src sp hsp a ha
    · exact hI.pAlloc i q (by simpa [h2] using hi) a ha
  case valLive =>
    intro a ha
    dsimp only at ha ⊢
    obtain ⟨i, q, hi, hp⟩ := hI.valLive a ha
    have hne : ¬ s.nextH = i := by
      have := hI.bH i (by simp [hi])
      omega
    exact ⟨i, q, by simpa [alookup_cons, hne] using hi, hp⟩
  case coh =>
    intro i p j q hi hj hr
    dsimp only at hi hj
    simp only [alookup_cons] at hi hj
    by_cases h1 : s.nextH = i <;> by_cases h2 : s.nextH = j
    · simp only [h1, if_pos rfl] at hi
      simp only [h2, if_pos rfl] at hj
      cases hi; cases hj; rfl
    · simp only [h1, if_pos rfl] at hi
      cases hi
      exact hI.coh src sp j q hsp (by simpa [h2] using hj) hr
    · simp only [h2, if_pos rfl] at hj
      cases hj
      exact hI.coh i p src sp (by simpa [h1] using hi) hsp hr
    · exact hI.coh i p j q (by simpa [h1] using hi) (by simpa [h2] using hj) hr
  case inj =>
    intro i p j q a hi hj hp hq
    dsimp only at hi hj
    simp only [alookup_cons] at hi hj
    by_cases h1 : s.nextH = i <;> by_cases h2 : s.nextH = j
    · simp only [h1, if_pos rfl] at hi
      simp only [h2, if_pos rfl] at hj
      cases hi; cases hj; rfl
    · simp only [h1, if_pos rfl] at hi
      cases hi
      exact hI.inj src sp j q a hsp (by simpa [h2] using hj) hp hq
    · simp only [h2, if_pos rfl] at hj
      cases hj
      exact hI.inj i p src sp a (by simpa [h1] using hi) hsp hp hq
    · exact hI.inj i p j q a (by simpa [h1] using hi) (by simpa [h2] using hj) hp hq
  case freedOnce =>
    intro a
    exact hI.freedOnce a
  case freedDead =>
    intro a ha
    exact hI.freedDead a ha
  case valFate =>
    intro a ha
    exact hI.valFate a ha

theorem aerase_amodify_self {α : Type} (l : List (Nat × α)) (a : Nat) (f : α → α) :
    aerase (amodify l a f) a = aerase l a := by
  induction l with
  | nil => rfl
  | cons p t ih =>
    simp only [amodify, aerase]
    by_cases hpa : p.1 = a
    · simp [hpa, ih]
    · simp [hpa, ih]

theorem spDestroy_eq_live {T : Type} {s : Heap T} {hid : Nat} {sp : SPH} {c : Int}
    (hsp : alookup s.handles hid = some sp) (hc : alookup s.rcs sp.reference = some c)
    (hne : ¬ c - 1 = 0) :
    spDestroy s hid = some
      { vals := s.vals, rcs := aupdate s.rcs sp.reference (c - 1),
        handles := aerase s.handles hid,
        nextVal := s.nextVal, nextRC := s.nextRC, nextH := s.nextH,
        freedVals := s.freedVals } := by
  simp [spDestroy, hsp, heapRelease, hc, RC.Release, hne]

theorem spDestroy_eq_last_none {T : Type} {s : Heap T} {hid : Nat} {sp : SPH} {c : Int}
    (hsp : alookup s.handles hid = some sp) (hc : alookup s.rcs sp.reference = some c)
    (heq : c - 1 = 0) (hpd : sp.pData = none) :
    spDestroy s hid = some
      { vals := s.vals, rcs := aerase s.rcs sp.reference,
        handles := aerase s.handles hid,
        nextVal := s.nextVal, nextRC := s.nextRC, nextH := s.nextH,
        freedVals := s.freedVals } := by
  simp [spDestroy, hsp, heapRelease, hc, RC.Release, heq, deleteRC, deleteVal, hpd,
    aupdate, aerase_amodify_self]

theorem spDestroy_eq_last_some {T : Type} {s : Heap T} {hid : Nat} {sp : SPH} {c : Int}
    {a : Nat} (hsp : alookup s.handles hid = some sp)
    (hc : alookup s.rcs sp.reference = some c)
    (heq : c - 1 = 0) (hpd : sp.pData = some a) :
    spDestroy s hid = some
      { vals := aerase s.vals a, rcs := aerase s.rcs sp.reference,
        handles := aerase s.handles hid,
        nextVal := s.nextVal, nextRC := s.nextRC, nextH := s.nextH,
        freedVals := a :: s.freedVals } := by
  simp [spDestroy, hsp, heapRelease, hc, RC.Release, heq, deleteRC, deleteVal, hpd,
    aupdate, aerase_amodify_self]

/-- A second live handle in the same counter group as `(hid, sp)` exists
whenever the group count is at least two after erasing `hid`. -/
theorem second_member {T : Type} {s : Heap T} (hI : Inv s) {hid : Nat} {sp : SPH}
    (hsp : alookup s.handles hid = some sp)
    (h2 : 0 < rcCount (aerase s.handles hid) sp.reference) :
    ∃ j q, alookup s.handles j = some q ∧ ¬ j = hid ∧
      q.reference = sp.reference ∧ q.pData = sp.pData := by
  obtain ⟨j, q, hj, hr⟩ := exists_of_rcCount_pos (keys_aerase_nodup hid hI.ndH) h2
  rw [alookup_aerase] at hj
  by_cases hjh : j = hid
  · rw [if_pos hjh] at hj
    cases hj
  · rw [if_neg hjh] at hj
    exact ⟨j, q, hj, hjh, hr, hI.coh j q hid sp hj hsp (by rw [hr])⟩

theorem inv_spDestroy {T : Type} {s s' : Heap T} (hI : Inv s) {hid : Nat}
    (h : spDestroy s hid = some s') : Inv s' := by
  cases hsp : alookup s.handles hid with
  | none => simp [spDestroy, hsp] at h
  | some sp =>
  cases hc : alookup s.rcs sp.reference with
  | none => simp [spDestroy, hsp, heapRelease, hc] at h
  | some c =>
  have hrc : c = (rcCount s.handles sp.reference : Int) := hI.counts _ _ hc
  have hpos : 0 < rcCount s.handles sp.reference := rcCount_pos hsp rfl
  have herase : rcCount s.handles sp.reference
      = rcCount (aerase s.handles hid) sp.reference + 1 := by
    have := rcCount_aerase sp.reference hI.ndH hsp
    simpa using this
  by_cases hretz : c - 1 = 0
  case neg =>
    -- the destroyed handle was not the last member of its group
    have hrge2 : 2 ≤ rcCount s.handles sp.reference := by omega
    rw [spDestroy_eq_live hsp hc hretz] at h
    cases h
    constructor
    case ndV => exact hI.ndV
    case ndR =>
      dsimp only
      rw [aupdate, keys_amodify]
      exact hI.ndR
    case ndH =>
      dsimp only
      exact keys_aerase_nodup hid hI.ndH
    case bV => exact hI.bV
    case bR =>
      intro r hr
      dsimp only at hr ⊢
      rw [alookup_aupdate] at hr
      by_cases h2 : r = sp.reference
      · rw [if_pos h2, isSome_map_opt] at hr
        subst h2
        exact hI.bR _ hr
      · rw [if_neg h2] at hr
        exact hI.bR r hr
    case bH =>
      intro i hi
      dsimp only at hi ⊢
      rw [alookup_aerase] at hi
      by_cases h2 : i = hid
      · rw [if_pos h2] at hi
        simp at hi
      · rw [if_neg h2] at hi
        exact hI.bH i hi
    case bF =>
      intro b hb
      exact hI.bF b hb
    case refAlloc =>
      intro i q hi
      dsimp only at hi ⊢
      rw [alookup_aerase] at hi
      by_cases h2 : i = hid
      · rw [if_pos h2] at hi
        cases hi
      · rw [if_neg h2] at hi
        have hq := hI.refAlloc i q hi
        rw [alookup_aupdate]
        by_cases h3 : q.reference = sp.reference
        · rw [if_pos h3, isSome_map_opt]
          rw [h3] at hq
          exact hq
        · rw [if_neg h3]
          exact hq
    case counts =>
      intro r c2 hc2
      dsimp only at hc2 ⊢
      rw [alookup_aupdate] at hc2
      have hra := rcCount_aerase r hI.ndH hsp
      by_cases h2 : r = sp.reference
      · rw [if_pos h2, hc] at hc2
        rw [Option.map_some'] at hc2
        cases hc2
        have hif : sp.reference = r := h2.symm
        rw [if_pos hif] at hra
        rw [h2] at hra ⊢
        omega
      · rw [if_neg h2] at hc2
        have := hI.counts r c2 hc2
        have hif : ¬ sp.reference = r := fun hh => h2 hh.symm
        rw [if_neg hif] at hra
        omega
    case pAlloc =>
      intro i q hi b hb
      dsimp only at hi ⊢
      rw [alookup_aerase] at hi
      by_cases h2 : i = hid
      · rw [if_pos h2] at hi
        cases hi
      · rw [if_neg h2] at hi
        exact hI.pAlloc i q hi b hb
    case valLive =>
      intro b hb
      dsimp only at hb ⊢
      obtain ⟨i, q, hi, hp⟩ := hI.valLive b hb
      by_cases h2 : i = hid
      · subst h2
        rw [hsp] at hi
        cases hi
        obtain ⟨j, q2, hj, hjh, hjr, hjp⟩ := second_member hI hsp (by omega)
        refine ⟨j, q2, ?_, by rw [hjp]; exact hp⟩
        rw [alookup_aerase, if_neg hjh]
        exact hj
      · refine ⟨i, q, ?_, hp⟩
        rw [alookup_aerase, if_neg h2]
        exact hi
    case coh =>
      intro i p j q hi hj hr
      dsimp only at hi hj
      rw [alookup_aerase] at hi hj
      by_cases h1 : i = hid
      · rw [if_pos h1] at hi
        cases hi
      · by_cases h2 : j = hid
        · rw [if_pos h2] at hj
          cases hj
        · rw [if_neg h1] at hi
          rw [if_neg h2] at hj
          exact hI.coh i p j q hi hj hr
    case inj =>
      intro i p j q b hi hj hp hq
      dsimp only at hi hj
      rw [alookup_aerase] at hi hj
      by_cases h1 : i = hid
      · rw [if_pos h1] at hi
        cases hi
      · by_cases h2 : j = hid
        · rw [if_pos h2] at hj
          cases hj
        · rw [if_neg h1] at hi
          rw [if_neg h2] at hj
          exact hI.inj i p j q b hi hj hp hq
    case freedOnce =>
      intro b
      exact hI.freedOnce b
    case freedDead =>
      intro b hb
      exact hI.freedDead b hb
    case valFate =>
      intro b hb
      exact hI.valFate b hb
  case pos =>
    -- the destroyed handle was the last member: the binding is freed
    have hrc1 : rcCount s.handles sp.reference = 1 := by omega
    have hrc0 : rcCount (aerase s.handles hid) sp.reference = 0 := by omega
    have hnoref : ∀ i q, alookup s.handles i = some q → ¬ i = hid →
        ¬ q.reference = sp.reference := by
      intro i q hi hih hqr
      have := rcCount_ge_two hi hsp hih hqr rfl
      omega
    cases hpd : sp.pData with
    | none =>
      rw [spDestroy_eq_last_none hsp hc hretz hpd] at h
      cases h
      constructor
      case ndV => exact hI.ndV
      case ndR =>
        dsimp only
        exact keys_aerase_nodup sp.reference hI.ndR
      case ndH =>
        dsimp only
        exact keys_aerase_nodup hid hI.ndH
      case bV => exact hI.bV
      case bR =>
        intro r hr
        dsimp only at hr ⊢
        rw [alookup_aerase] at hr
        by_cases h2 : r = sp.reference
        · rw [if_pos h2] at hr
          simp at hr
        · rw [if_neg h2] at hr
          exact hI.bR r hr
      case bH =>
        intro i hi
        dsimp only at hi ⊢
        rw [alookup_aerase] at hi
        by_cases h2 : i = hid
        · rw [if_pos h2] at hi
          simp at hi
        · rw [if_neg h2] at hi
          exact hI.bH i hi
      case bF =>
        intro b hb
        exact hI.bF b hb
      case refAlloc =>
        intro i q hi
        dsimp only at hi ⊢
        rw [alookup_aerase] at hi
        by_cases h2 : i = hid
        · rw [if_pos h2] at hi
          cases hi
        · rw [if_neg h2] at hi
          rw [alookup_aerase, if_neg (hnoref i q hi h2)]
          exact hI.refAlloc i q hi
      case counts =>
        intro r c2 hc2
        dsimp only at hc2 ⊢
        rw [alookup_aerase] at hc2
        by_cases h2 : r = sp.reference
        · rw [if_pos h2] at hc2
          cases hc2
        · rw [if_neg h2] at hc2
          have := hI.counts r c2 hc2
          have hra := rcCount_aerase r hI.ndH hsp
          have hif : ¬ sp.reference = r := fun hh => h2 hh.symm
          rw [if_neg hif] at hra
          omega
      case pAlloc =>
        intro i q hi b hb
        dsimp only at hi ⊢
        rw [alookup_aerase] at hi
        by_cases h2 : i = hid
        · rw [if_pos h2] at hi
          cases hi
        · rw [if_neg h2] at hi
          exact hI.pAlloc i q hi b hb
      case valLive =>
        intro b hb
        dsimp only at hb ⊢
        obtain ⟨i, q, hi, hp⟩ := hI.valLive b hb
        by_cases h2 : i = hid
        · subst h2
          rw [hsp] at hi
          cases hi
          rw [hpd] at hp
          cases hp
        · refine ⟨i, q, ?_, hp⟩
          rw [alookup_aerase, if_neg h2]
          exact hi
      case coh =>
        intro i p j q hi hj hr
        dsimp only at hi hj
        rw [alookup_aerase] at hi hj
        by_cases h1 : i = hid
        · rw [if_pos h1] at hi
          cases hi
        · by_cases h2 : j = hid
          · rw [if_pos h2] at hj
            cases hj
          · rw [if_neg h1] at hi
            rw [if_neg h2] at hj
            exact hI.coh i p j q hi hj hr
      case inj =>
        intro i p j q b hi hj hp hq
        dsimp only at hi hj
        rw [alookup_aerase] at hi hj
        by_cases h1 : i = hid
        · rw [if_pos h1] at hi
          cases hi
        · by_cases h2 : j = hid
          · rw [if_pos h2] at hj
            cases hj
          · rw [if_neg h1] at hi
            rw [if_neg h2] at hj
            exact hI.inj i p j q b hi hj hp hq
      case freedOnce =>
        intro b
        exact hI.freedOnce b
      case freedDead =>
        intro b hb
        exact hI.freedDead b hb
      case valFate =>
        intro b hb
        exact hI.valFate b hb
    | some a =>
      have hava : (alookup s.vals a).isSome := hI.pAlloc hid sp hsp a hpd
      have hanf : a ∉ s.freedVals := by
        intro hmem
        rw [hI.freedDead a hmem] at hava
        simp at hava
      rw [spDestroy_eq_last_some hsp hc hretz hpd] at h
      cases h
      constructor
      case ndV =>
        dsimp only
        exact keys_aerase_nodup a hI.ndV
      case ndR =>
        dsimp only
        exact keys_aerase_nodup sp.reference hI.ndR
      case ndH =>
        dsimp only
        exact keys_aerase_nodup hid hI.ndH
      case bV =>
        intro b hb
        dsimp only at hb ⊢
        rw [alookup_aerase] at hb
        by_cases h2 : b = a
        · rw [if_pos h2] at hb
          simp at hb
        · rw [if_neg h2] at hb
          exact hI.bV b hb
      case bR =>
        intro r hr
        dsimp only at hr ⊢
        rw [alookup_aerase] at hr
        by_cases h2 : r = sp.reference
        · rw [if_pos h2] at hr
          simp at hr
        · rw [if_neg h2] at hr
          exact hI.bR r hr
      case bH =>
        intro i hi
        dsimp only at hi ⊢
        rw [alookup_aerase] at hi
        by_cases h2 : i = hid
        · rw [if_pos h2] at hi
          simp at hi
        · rw [if_neg h2] at hi
          exact hI.bH i hi
      case bF =>
        intro b hb
        dsimp only at hb ⊢
        rcases List.mem_cons.1 hb with h2 | h2
        · subst h2
          exact hI.bV b hava
        · exact hI.bF b h2
      case refAlloc =>
        intro i q hi
        dsimp only at hi ⊢
        rw [alookup_aerase] at hi
        by_cases h2 : i = hid
        · rw [if_pos h2] at hi
          cases hi
        · rw [if_neg h2] at hi
          rw [alookup_aerase, if_neg (hnoref i q hi h2)]
          exact hI.refAlloc i q hi
      case counts =>
        intro r c2 hc2
        dsimp only at hc2 ⊢
        rw [alookup_aerase] at hc2
        by_cases h2 : r = sp.reference
        · rw [if_pos h2] at hc2
          cases hc2
        · rw [if_neg h2] at hc2
          have := hI.counts r c2 hc2
          have hra := rcCount_aerase r hI.ndH hsp
          have hif : ¬ sp.reference = r := fun hh => h2 hh.symm
          rw [if_neg hif] at hra
          omega
      case pAlloc =>
        intro i q hi b hb
        dsimp only at hi ⊢
        rw [alookup_aerase] at hi
        by_cases h2 : i = hid
        · rw [if_pos h2] at hi
          cases hi
        · rw [if_neg h2] at hi
          have hba : ¬ b = a := by
            intro hba2
            subst hba2
            exact hnoref i q hi h2 (hI.inj i q hid sp _ hi hsp hb hpd)
          rw [alookup_aerase, if_neg hba]
          exact hI.pAlloc i q hi b hb
      case valLive =>
        intro b hb
        dsimp only at hb ⊢
        rw [alookup_aerase] at hb
        by_cases h2 : b = a
        · rw [if_pos h2] at hb
          simp at hb
        · rw [if_neg h2] at hb
          obtain ⟨i, q, hi, hp⟩ := hI.valLive b hb
          by_cases h3 : i = hid
          · subst h3
            rw [hsp] at hi
            cases hi
            rw [hpd] at hp
            cases hp
            exact absurd rfl h2
          · refine ⟨i, q, ?_, hp⟩
            rw [alookup_aerase, if_neg h3]
            exact hi
      case coh =>
        intro i p j q hi hj hr
        dsimp only at hi hj
        rw [alookup_aerase] at hi hj
        by_cases h1 : i = hid
        · rw [if_pos h1] at hi
          cases hi
        · by_cases h2 : j = hid
          · rw [if_pos h2] at hj
            cases hj
          · rw [if_neg h1] at hi
            rw [if_neg h2] at hj
            exact hI.coh i p j q hi hj hr
      case inj =>
        intro i p j q b hi hj hp hq
        dsimp only at hi hj
        rw [alookup_aerase] at hi hj
        by_cases h1 : i = hid
        · rw [if_pos h1] at hi
          cases hi
        · by_cases h2 : j = hid
          · rw [if_pos h2] at hj
            cases hj
          · rw [if_neg h1] at hi
            rw [if_neg h2] at hj
            exact hI.inj i p j q b hi hj hp hq
      case freedOnce =>
        intro b
        dsimp only
        simp only [natCount]
        by_cases h2 : a = b
        · subst h2
          have : natCount s.freedVals a = 0 := natCount_eq_zero hanf
          simp [this]
        · have := hI.freedOnce b
          rw [if_neg h2]
          omega
      case freedDead =>
        intro b hb
        dsimp only at hb ⊢
        rw [alookup_aerase]
        rcases List.mem_cons.1 hb with h2 | h2
        · rw [if_pos h2]
        · by_cases h3 : b = a
          · rw [if_pos h3]
          · rw [if_neg h3]
            exact hI.freedDead b h2
      case valFate =>
        intro b hb
        dsimp only at hb ⊢
        by_cases h2 : b = a
        · right
          rw [h2]
          exact List.mem_cons_self a s.freedVals
        · rcases hI.valFate b hb with h3 | h3
          · left
            rw [alookup_aerase, if_neg h2]
            exact h3
          · right
            exact List.mem_cons_of_mem a h3

theorem spAssign_eq_self {T : Type} {s : Heap T} {tgt : Nat} {tsp : SPH}
    (htsp : alookup s.handles tgt = some tsp) : spAssign s tgt tgt = some s := by
  simp [spAssign, htsp]

theorem spAssign_eq_live {T : Type} {s : Heap T} {tgt src : Nat} {tsp ssp : SPH} {c : Int}
    (htsp : alookup s.handles tgt = some tsp) (hssp : alookup s.handles src = some ssp)
    (hts : ¬ tgt = src) (hc : alookup s.rcs tsp.reference = some c) (hne : ¬ c - 1 = 0) :
    spAssign s tgt src = some
      { vals := s.vals,
        rcs := amodify (aupdate s.rcs tsp.reference (c - 1)) ssp.reference RC.AddRef,
        handles := aupdate s.handles tgt ⟨ssp.pData, ssp.reference⟩,
        nextVal := s.nextVal, nextRC := s.nextRC, nextH := s.nextH,
        freedVals := s.freedVals } := by
  simp [spAssign, htsp, hssp, hts, heapRelease, hc, RC.Release, hne, heapAddRef]

theorem spAssign_eq_last_none {T : Type} {s : Heap T} {tgt src : Nat} {tsp ssp : SPH}
    {c : Int} (htsp : alookup s.handles tgt = some tsp)
    (hssp : alookup s.handles src = some ssp) (hts : ¬ tgt = src)
    (hc : alookup s.rcs tsp.reference = some c) (heq : c - 1 = 0)
    (hpd : tsp.pData = none) :
    spAssign s tgt src = some
      { vals := s.vals,
        rcs := amodify (aerase s.rcs tsp.reference) ssp.reference RC.AddRef,
        handles := aupdate s.handles tgt ⟨ssp.pData, ssp.reference⟩,
        nextVal := s.nextVal, nextRC := s.nextRC, nextH := s.nextH,
        freedVals := s.freedVals } := by
  simp [spAssign, htsp, hssp, hts, heapRelease, hc, RC.Release, heq, heapAddRef,
    deleteRC, deleteVal, hpd, aupdate, aerase_amodify_self]

theorem spAssign_eq_last_some {T : Type} {s : Heap T} {tgt src : Nat} {tsp ssp : SPH}
    {c : Int} {a : Nat} (htsp : alookup s.handles tgt = some tsp)
    (hssp : alookup s.handles src = some ssp) (hts : ¬ tgt = src)
    (hc : alookup s.rcs tsp.reference = some c) (heq : c - 1 = 0)
    (hpd : tsp.pData = some a) :
    spAssign s tgt src = some
      { vals := aerase s.vals a,
        rcs := amodify (aerase s.rcs tsp.reference) ssp.reference RC.AddRef,
        handles := aupdate s.handles tgt ⟨ssp.pData, ssp.reference⟩,
        nextVal := s.nextVal, nextRC := s.nextRC, nextH := s.nextH,
        freedVals := a :: s.freedVals } := by
  simp [spAssign, htsp, hssp, hts, heapRelease, hc, RC.Release, heq, heapAddRef,
    deleteRC, deleteVal, hpd, aupdate, aerase_amodify_self]

theorem inv_spAssign {T : Type} {s s' : Heap T} (hI : Inv s) {tgt src : Nat}
    (h : spAssign s tgt src = some s') : Inv s' := by
  cases htsp : alookup s.handles tgt with
  | none => simp [spAssign, htsp] at h
  | some tsp =>
  cases hssp : alookup s.handles src with
  | none => simp [spAssign, htsp, hssp] at h
  | some ssp =>
  by_cases hts : tgt = src
  · subst hts
    rw [spAssign_eq_self htsp] at h
    cases h
    exact hI
  cases hc : alookup s.rcs tsp.reference with
  | none => simp [spAssign, htsp, hssp, hts, heapRelease, hc] at h
  | some c =>
  have hrc : c = (rcCount s.handles tsp.reference : Int) := hI.counts _ _ hc
  have hpos : 0 < rcCount s.handles tsp.reference := rcCount_pos htsp rfl
  have herase : rcCount s.handles tsp.reference
      = rcCount (aerase s.handles tgt) tsp.reference + 1 := by
    have := rcCount_aerase tsp.reference hI.ndH htsp
    simpa using this
  by_cases hretz : c - 1 = 0
  case neg =>
    -- the old binding keeps other owners: only the counter moves
    rw [spAssign_eq_live htsp hssp hts hc hretz] at h
    cases h
    constructor
    case ndV => exact hI.ndV
    case ndR =>
      dsimp only
      rw [keys_amodify, aupdate, keys_amodify]
      exact hI.ndR
    case ndH =>
      dsimp only
      rw [aupdate, keys_amodify]
      exact hI.ndH
    case bV => exact hI.bV
    case bR =>
      intro r hr
      dsimp only at hr ⊢
      rw [isSome_amodify, isSome_aupdate] at hr
      exact hI.bR r hr
    case bH =>
      intro i hi
      dsimp only at hi ⊢
      rw [isSome_aupdate] at hi
      exact hI.bH i hi
    case bF =>
      intro b hb
      exact hI.bF b hb
    case refAlloc =>
      intro i q hi
      dsimp only at hi ⊢
      rw [alookup_aupdate] at hi
      rw [isSome_amodify, isSome_aupdate]
      by_cases h2 : i = tgt
      · rw [if_pos h2, htsp, Option.map_some'] at hi
        cases hi
        dsimp only
        exact hI.refAlloc src ssp hssp
      · rw [if_neg h2] at hi
        exact hI.refAlloc i q hi
    case counts =>
      intro r c2 hc2
      dsimp only at hc2 ⊢
      have haup := rcCount_aupdate (⟨ssp.pData, ssp.reference⟩ : SPH) r hI.ndH htsp
      dsimp only at haup
      rw [alookup_amodify] at hc2
      by_cases h1 : r = ssp.reference
      · rw [if_pos h1, alookup_aupdate] at hc2
        by_cases h2 : ssp.reference = tsp.reference
        · rw [if_pos h2, hc, Option.map_some', Option.map_some'] at hc2
          cases hc2
          have ht : tsp.reference = r := h2.symm.trans h1.symm
          rw [if_pos ht, if_pos h1.symm] at haup
          rw [ht] at hrc
          rw [RC.AddRef]
          omega
        · rw [if_neg h2] at hc2
          cases hcs : alookup s.rcs ssp.reference with
          | none =>
            rw [hcs] at hc2
            simp at hc2
          | some c0 =>
            rw [hcs, Option.map_some'] at hc2
            cases hc2
            have hc0 := hI.counts _ _ hcs
            rw [← h1] at hc0
            have hnt : ¬ tsp.reference = r := by
              rw [h1]
              exact fun hh => h2 hh.symm
            rw [if_neg hnt, if_pos h1.symm] at haup
            rw [RC.AddRef]
            omega
      · rw [if_neg h1, alookup_aupdate] at hc2
        by_cases h3 : r = tsp.reference
        · rw [if_pos h3, hc, Option.map_some'] at hc2
          cases hc2
          rw [if_pos h3.symm, if_neg (fun hh => h1 hh.symm)] at haup
          rw [← h3] at hrc
          omega
        · rw [if_neg h3] at hc2
          have := hI.counts r c2 hc2
          rw [if_neg (fun hh => h3 hh.symm), if_neg (fun hh => h1 hh.symm)] at haup
          omega
    case pAlloc =>
      intro i q hi b hb
      dsimp only at hi ⊢
      rw [alookup_aupdate] at hi
      by_cases h2 : i = tgt
      · rw [if_pos h2, htsp, Option.map_some'] at hi
        cases hi
        dsimp only at hb
        exact hI.pAlloc src ssp hssp b hb
      · rw [if_neg h2] at hi
        exact hI.pAlloc i q hi b hb
    case valLive =>
      intro b hb
      dsimp only at hb ⊢
      obtain ⟨i, q, hi, hp⟩ := hI.valLive b hb
      by_cases h2 : i = tgt
      · subst h2
        rw [htsp] at hi
        cases hi
        obtain ⟨j, q2, hj, hjh, hjr, hjp⟩ := second_member hI htsp (by omega)
        refine ⟨j, q2, ?_, by rw [hjp]; exact hp⟩
        rw [alookup_aupdate, if_neg hjh]
        exact hj
      · refine ⟨i, q, ?_, hp⟩
        rw [alookup_aupdate, if_neg h2]
        exact hi
    case coh =>
      intro i p j q hi hj hr
      dsimp only at hi hj
      rw [alookup_aupdate] at hi hj
      by_cases h1 : i = tgt <;> by_cases h2 : j = tgt
      · rw [if_pos h1, htsp, Option.map_some'] at hi
        rw [if_pos h2, htsp, Option.map_some'] at hj
        cases hi; cases hj; rfl
      · rw [if_pos h1, htsp, Option.map_some'] at hi
        rw [if_neg h2] at hj
        cases hi
        dsimp only at hr ⊢
        exact hI.coh src ssp j q hssp hj hr
      · rw [if_neg h1] at hi
        rw [if_pos h2, htsp, Option.map_some'] at hj
        cases hj
        dsimp only at hr ⊢
        exact hI.coh i p src ssp hi hssp hr
      · rw [if_neg h1] at hi
        rw [if_neg h2] at hj
        exact hI.coh i p j q hi hj hr
    case inj =>
      intro i p j q b hi hj hp hq
      dsimp only at hi hj
      rw [alookup_aupdate] at hi hj
      by_cases h1 : i = tgt <;> by_cases h2 : j = tgt
      · rw [if_pos h1, htsp, Option.map_some'] at hi
        rw [if_pos h2, htsp, Option.map_some'] at hj
        cases hi; cases hj; rfl
      · rw [if_pos h1, htsp, Option.map_some'] at hi
        rw [if_neg h2] at hj
        cases hi
        dsimp only at hp ⊢
        exact hI.inj src ssp j q b hssp hj hp hq
      · rw [if_neg h1] at hi
        rw [if_pos h2, htsp, Option.map_some'] at hj
        cases hj
        dsimp only at hq ⊢
        exact hI.inj i p src ssp b hi hssp hp hq
      · rw [if_neg h1] at hi
        rw [if_neg h2] at hj
        exact hI.inj i p j q b hi hj hp hq
    case freedOnce =>
      intro b
      exact hI.freedOnce b
    case freedDead =>
      intro b hb
      exact hI.freedDead b hb
    case valFate =>
      intro b hb
      exact hI.valFate b hb
  case pos =>
    -- the target was the sole owner of its old binding: that binding is freed
    have hrc1 : rcCount s.handles tsp.reference = 1 := by omega
    have hrefs : ¬ ssp.reference = tsp.reference := by
      intro hh
      have := rcCount_ge_two hssp htsp (fun hh2 => hts hh2.symm) hh rfl
      omega
    have hnoref : ∀ i q, alookup s.handles i = some q → ¬ i = tgt →
        ¬ q.reference = tsp.reference := by
      intro i q hi hit hqr
      have := rcCount_ge_two hi htsp hit hqr rfl
      omega
    cases hpd : tsp.pData with
    | none =>
      rw [spAssign_eq_last_none htsp hssp hts hc hretz hpd] at h
      cases h
      constructor
      case ndV => exact hI.ndV
      case ndR =>
        dsimp only
        rw [keys_amodify]
        exact keys_aerase_nodup tsp.reference hI.ndR
      case ndH =>
        dsimp only
        rw [aupdate, keys_amodify]
        exact hI.ndH
      case bV => exact hI.bV
      case bR =>
        intro r hr
        dsimp only at hr ⊢
        rw [isSome_amodify] at hr
        rw [alookup_aerase] at hr
        by_cases h2 : r = tsp.reference
        · rw [if_pos h2] at hr
          simp at hr
        · rw [if_neg h2] at hr
          exact hI.bR r hr
      case bH =>
        intro i hi
        dsimp only at hi ⊢
        rw [isSome_aupdate] at hi
        exact hI.bH i hi
      case bF =>
        intro b hb
        exact hI.bF b hb
      case refAlloc =>
        intro i q hi
        dsimp only at hi ⊢
        rw [alookup_aupdate] at hi
        rw [isSome_amodify, alookup_aerase]
        by_cases h2 : i = tgt
        · rw [if_pos h2, htsp, Option.map_some'] at hi
          cases hi
          dsimp only
          rw [if_neg hrefs]
          exact hI.refAlloc src ssp hssp
        · rw [if_neg h2] at hi
          rw [if_neg (hnoref i q hi h2)]
          exact hI.refAlloc i q hi
      case counts =>
        intro r c2 hc2
        dsimp only at hc2 ⊢
        have haup := rcCount_aupdate (⟨ssp.pData, ssp.reference⟩ : SPH) r hI.ndH htsp
        dsimp only at haup
        rw [alookup_amodify] at hc2
        by_cases h1 : r = ssp.reference
        · rw [if_pos h1, alookup_aerase, if_neg hrefs] at hc2
          cases hcs : alookup s.rcs ssp.reference with
          | none =>
            rw [hcs] at hc2
            simp at hc2
          | some c0 =>
            rw [hcs, Option.map_some'] at hc2
            cases hc2
            have hc0 := hI.counts _ _ hcs
            rw [← h1] at hc0
            have hnt : ¬ tsp.reference = r := by
              rw [h1]
              exact fun hh => hrefs hh.symm
            rw [if_neg hnt, if_pos h1.symm] at haup
            rw [RC.AddRef]
            omega
        · rw [if_neg h1, alookup_aerase] at hc2
          by_cases h3 : r = tsp.reference
          · rw [if_pos h3] at hc2
            cases hc2
          · rw [if_neg h3] at hc2
            have := hI.counts r c2 hc2
            rw [if_neg (fun hh => h3 hh.symm), if_neg (fun hh => h1 hh.symm)] at haup
            omega
      case pAlloc =>
        intro i q hi b hb
        dsimp only at hi ⊢
        rw [alookup_aupdate] at hi
        by_cases h2 : i = tgt
        · rw [if_pos h2, htsp, Option.map_some'] at hi
          cases hi
          dsimp only at hb
          exact hI.pAlloc src ssp hssp b hb
        · rw [if_neg h2] at hi
          exact hI.pAlloc i q hi b hb
      case valLive =>
        intro b hb
        dsimp only at hb ⊢
        obtain ⟨i, q, hi, hp⟩ := hI.valLive b hb
        by_cases h2 : i = tgt
        · subst h2
          rw [htsp] at hi
          cases hi
          rw [hpd] at hp
          cases hp
        · refine ⟨i, q, ?_, hp⟩
          rw [alookup_aupdate, if_neg h2]
          exact hi
      case coh =>
        intro i p j q hi hj hr
        dsimp only at hi hj
        rw [alookup_aupdate] at hi hj
        by_cases h1 : i = tgt <;> by_cases h2 : j = tgt
        · rw [if_pos h1, htsp, Option.map_some'] at hi
          rw [if_pos h2, htsp, Option.map_some'] at hj
          cases hi; cases hj; rfl
        · rw [if_pos h1, htsp, Option.map_some'] at hi
          rw [if_neg h2] at hj
          cases hi
          dsimp only at hr ⊢
          exact hI.coh src ssp j q hssp hj hr
        · rw [if_neg h1] at hi
          rw [if_pos h2, htsp, Option.map_some'] at hj
          cases hj
          dsimp only at hr ⊢
          exact hI.coh i p src ssp hi hssp hr
        · rw [if_neg h1] at hi
          rw [if_neg h2] at hj
          exact hI.coh i p j q hi hj hr
      case inj =>
        intro i p j q b hi hj hp hq
        dsimp only at hi hj
        rw [alookup_aupdate] at hi hj
        by_cases h1 : i = tgt <;> by_cases h2 : j = tgt
        · rw [if_pos h1, htsp, Option.map_some'] at hi
          rw [if_pos h2, htsp, Option.map_some'] at hj
          cases hi; cases hj; rfl
        · rw [if_pos h1, htsp, Option.map_some'] at hi
          rw [if_neg h2] at hj
          cases hi
          dsimp only at hp ⊢
          exact hI.inj src ssp j q b hssp hj hp hq
        · rw [if_neg h1] at hi
          rw [if_pos h2, htsp, Option.map_some'] at hj
          cases hj
          dsimp only at hq ⊢
          exact hI.inj i p src ssp b hi hssp hp hq
        · rw [if_neg h1] at hi
          rw [if_neg h2] at hj
          exact hI.inj i p j q b hi hj hp hq
      case freedOnce =>
        intro b
        exact hI.freedOnce b
      case freedDead =>
        intro b hb
        exact hI.freedDead b hb
      case valFate =>
        intro b hb
        exact hI.valFate b hb
    | some a =>
      have hava : (alookup s.vals a).isSome := hI.pAlloc tgt tsp htsp a hpd
      have hanf : a ∉ s.freedVals := by
        intro hmem
        rw [hI.freedDead a hmem] at hava
        simp at hava
      rw [spAssign_eq_last_some htsp hssp hts hc hretz hpd] at h
      cases h
      constructor
      case ndV =>
        dsimp only
        exact keys_aerase_nodup a hI.ndV
      case ndR =>
        dsimp only
        rw [keys_amodify]
        exact keys_aerase_nodup tsp.reference hI.ndR
      case ndH =>
        dsimp only
        rw [aupdate, keys_amodify]
        exact hI.ndH
      case bV =>
        intro b hb
        dsimp only at hb ⊢
        rw [alookup_aerase] at hb
        by_cases h2 : b = a
        · rw [if_pos h2] at hb
          simp at hb
        · rw [if_neg h2] at hb
          exact hI.bV b hb
      case bR =>
        intro r hr
        dsimp only at hr ⊢
        rw [isSome_amodify] at hr
        rw [alookup_aerase] at hr
        by_cases h2 : r = tsp.reference
        · rw [if_pos h2] at hr
          simp at hr
        · rw [if_neg h2] at hr
          exact hI.bR r hr
      case bH =>
        intro i hi
        dsimp only at hi ⊢
        rw [isSome_aupdate] at hi
        exact hI.bH i hi
      case bF =>
        intro b hb
        dsimp only at hb ⊢
        rcases List.mem_cons.1 hb with h2 | h2
        · subst h2
          exact hI.bV b hava
        · exact hI.bF b h2
      case refAlloc =>
        intro i q hi
        dsimp only at hi ⊢
        rw [alookup_aupdate] at hi
        rw [isSome_amodify, alookup_aerase]
        by_cases h2 : i = tgt
        · rw [if_pos h2, htsp, Option.map_some'] at hi
          cases hi
          dsimp only
          rw [if_neg hrefs]
          exact hI.refAlloc src ssp hssp
        · rw [if_neg h2] at hi
          rw [if_neg (hnoref i q hi h2)]
          exact hI.refAlloc i q hi
      case counts =>
        intro r c2 hc2
        dsimp only at hc2 ⊢
        have haup := rcCount_aupdate (⟨ssp.pData, ssp.reference⟩ : SPH) r hI.ndH htsp
        dsimp only at haup
        rw [alookup_amodify] at hc2
        by_cases h1 : r = ssp.reference
        · rw [if_pos h1, alookup_aerase, if_neg hrefs] at hc2
          cases hcs : alookup s.rcs ssp.reference with
          | none =>
            rw [hcs] at hc2
            simp at hc2
          | some c0 =>
            rw [hcs, Option.map_some'] at hc2
            cases hc2
            have hc0 := hI.counts _ _ hcs
            rw [← h1] at hc0
            have hnt : ¬ tsp.reference = r := by
              rw [h1]
              exact fun hh => hrefs hh.symm
            rw [if_neg hnt, if_pos h1.symm] at haup
            rw [RC.AddRef]
            omega
        · rw [if_neg h1, alookup_aerase] at hc2
          by_cases h3 : r = tsp.reference
          · rw [if_pos h3] at hc2
            cases hc2
          · rw [if_neg h3] at hc2
            have := hI.counts r c2 hc2
            rw [if_neg (fun hh => h3 hh.symm), if_neg (fun hh => h1 hh.symm)] at haup
            omega
      case pAlloc =>
        intro i q hi b hb
        dsimp only at hi ⊢
        rw [alookup_aupdate] at hi
        rw [alookup_aerase]
        by_cases h2 : i = tgt
        · rw [if_pos h2, htsp, Option.map_some'] at hi
          cases hi
          dsimp only at hb
          have hba : ¬ b = a := by
            intro hba2
            subst hba2
            exact hrefs (hI.inj src ssp tgt tsp _ hssp htsp hb hpd)
          rw [if_neg hba]
          exact hI.pAlloc src ssp hssp b hb
        · rw [if_neg h2] at hi
          have hba : ¬ b = a := by
            intro hba2
            subst hba2
            exact hnoref i q hi h2 (hI.inj i q tgt tsp _ hi htsp hb hpd)
          rw [if_neg hba]
          exact hI.pAlloc i q hi b hb
      case valLive =>
        intro b hb
        dsimp only at hb ⊢
        rw [alookup_aerase] at hb
        by_cases h2 : b = a
        · rw [if_pos h2] at hb
          simp at hb
        · rw [if_neg h2] at hb
          obtain ⟨i, q, hi, hp⟩ := hI.valLive b hb
          by_cases h3 : i = tgt
          · subst h3
            rw [htsp] at hi
            cases hi
            rw [hpd] at hp
            cases hp
            exact absurd rfl h2
          · refine ⟨i, q, ?_, hp⟩
            rw [alookup_aupdate, if_neg h3]
            exact hi
      case coh =>
        intro i p j q hi hj hr
        dsimp only at hi hj
        rw [alookup_aupdate] at hi hj
        by_cases h1 : i = tgt <;> by_cases h2 : j = tgt
        · rw [if_pos h1, htsp, Option.map_some'] at hi
          rw [if_pos h2, htsp, Option.map_some'] at hj
          cases hi; cases hj; rfl
        · rw [if_pos h1, htsp, Option.map_some'] at hi
          rw [if_neg h2] at hj
          cases hi
          dsimp only at hr ⊢
          exact hI.coh src ssp j q hssp hj hr
        · rw [if_neg h1] at hi
          rw [if_pos h2, htsp, Option.map_some'] at hj
          cases hj
          dsimp only at hr ⊢
          exact hI.coh i p src ssp hi hssp hr
        · rw [if_neg h1] at hi
          rw [if_neg h2] at hj
          exact hI.coh i p j q hi hj hr
      case inj =>
        intro i p j q b hi hj hp hq
        dsimp only at hi hj
        rw [alookup_aupdate] at hi hj
        by_cases h1 : i = tgt <;> by_cases h2 : j = tgt
        · rw [if_pos h1, htsp, Option.map_some'] at hi
          rw [if_pos h2, htsp, Option.map_some'] at hj
          cases hi; cases hj; rfl
        · rw [if_pos h1, htsp, Option.map_some'] at hi
          rw [if_neg h2] at hj
          cases hi
          dsimp only at hp ⊢
          exact hI.inj src ssp j q b hssp hj hp hq
        · rw [if_neg h1] at hi
          rw [if_pos h2, htsp, Option.map_some'] at hj
          cases hj
          dsimp only at hq ⊢
          exact hI.inj i p src ssp b hi hssp hp hq
        · rw [if_neg h1] at hi
          rw [if_neg h2] at hj
          exact hI.inj i p j q b hi hj hp hq
      case freedOnce =>
        intro b
        dsimp only
        simp only [natCount]
        by_cases h2 : a = b
        · subst h2
          have : natCount s.freedVals a = 0 := natCount_eq_zero hanf
          simp [this]
        · have := hI.freedOnce b
          rw [if_neg h2]
          omega
      case freedDead =>
        intro b hb
        dsimp only at hb ⊢
        rw [alookup_aerase]
        rcases List.mem_cons.1 hb with h2 | h2
        · rw [if_pos h2]
        · by_cases h3 : b = a
          · rw [if_pos h3]
          · rw [if_neg h3]
            exact hI.freedDead b h2
      case valFate =>
        intro b hb
        dsimp only at hb ⊢
        by_cases h2 : b = a
        · right
          rw [h2]
          exact List.mem_cons_self a s.freedVals
        · rcases hI.valFate b hb with h3 | h3
          · left
            rw [alookup_aerase, if_neg h2]
            exact h3
          · right
            exact List.mem_cons_of_mem a h3

theorem inv_spWrite {T : Type} {s s' : Heap T} (hI : Inv s) {hid : Nat} {v : T}
    (h : spWrite s hid v = some s') : Inv s' := by
  cases hsp : alookup s.handles hid with
  | none => simp [spWrite, hsp] at h
  | some sp =>
  cases hpd : sp.pData with
  | none => simp [spWrite, hsp, hpd] at h
  | some a =>
  cases hw : alookup s.vals a with
  | none => simp [spWrite, hsp, hpd, hw] at h
  | some w =>
  have heq : spWrite s hid v = some { s with vals := aupdate s.vals a v } := by
    simp [spWrite, hsp, hpd, hw]
  rw [heq] at h
  cases h
  constructor
  case ndV =>
    dsimp only
    rw [aupdate, keys_amodify]
    exact hI.ndV
  case ndR => exact hI.ndR
  case ndH => exact hI.ndH
  case bV =>
    intro b hb
    dsimp only at hb ⊢
    rw [isSome_aupdate] at hb
    exact hI.bV b hb
  case bR =>
    intro r hr
    exact hI.bR r hr
  case bH =>
    intro i hi
    exact hI.bH i hi
  case bF =>
    intro b hb
    exact hI.bF b hb
  case refAlloc =>
    intro i q hi
    exact hI.refAlloc i q hi
  case counts =>
    intro r c hc
    exact hI.counts r c hc
  case pAlloc =>
    intro i q hi b hb
    dsimp only
    rw [isSome_aupdate]
    exact hI.pAlloc i q hi b hb
  case valLive =>
    intro b hb
    dsimp only at hb ⊢
    rw [isSome_aupdate] at hb
    exact hI.valLive b hb
  case coh =>
    intro i p j q hi hj hr
    exact hI.coh i p j q hi hj hr
  case inj =>
    intro i p j q b hi hj hp hq
    exact hI.inj i p j q b hi hj hp hq
  case freedOnce =>
    intro b
    exact hI.freedOnce b
  case freedDead =>
    intro b hb
    dsimp only at hb ⊢
    have hold := hI.freedDead b hb
    rw [alookup_aupdate]
    by_cases h2 : b = a
    · rw [h2] at hold
      rw [hold] at hw
      cases hw
    · rw [if_neg h2]
      exact hold
  case valFate =>
    intro b hb
    dsimp only at hb ⊢
    rcases hI.valFate b hb with h2 | h2
    · left
      rw [isSome_aupdate]
      exact h2
    · right
      exact h2

theorem inv_step {T : Type} {s s' : Heap T} (hI : Inv s) {op : Op T}
    (h : step s op = some s') : Inv s' := by
  cases op with
  | newDefault => cases h; exact inv_spDefault hI
  | newFrom v => cases h; exact inv_spFrom hI v
  | newCopy src => exact inv_spCopy hI h
  | destroy hid => exact inv_spDestroy hI h
  | assign tgt src => exact inv_spAssign hI h
  | write hid v => exact inv_spWrite hI h

theorem inv_run {T : Type} : ∀ (ops : List (Op T)) {s s' : Heap T}, Inv s →
    run s ops = some s' → Inv s' := by
  intro ops
  induction ops with
  | nil =>
    intro s s' hI h
    cases h
    exact hI
  | cons op ops ih =>
    intro s s' hI h
    simp only [run] at h
    cases hstep : step s op with
    | none =>
      rw [hstep] at h
      cases h
    | some s1 =>
      rw [hstep] at h
      exact ih (inv_step hI hstep) h

/-- Every state a client program reaches from the empty heap satisfies the
invariant. -/
theorem inv_reachable {T : Type} {ops : List (Op T)} {s : Heap T}
    (h : run (initial T) ops = some s) : Inv s :=
  inv_run ops (inv_initial T) h

theorem aupdate_self {α : Type} {l : List (Nat × α)} {a : Nat} {v : α}
    (nd : (l.map Prod.fst).Nodup) (h : alookup l a = some v) : aupdate l a v = l := by
  induction l with
  | nil => rfl
  | cons p t ih =>
    simp only [List.map_cons, List.nodup_cons] at nd
    simp only [alookup] at h
    simp only [aupdate, amodify]
    by_cases hpa : p.1 = a
    · rw [if_pos hpa] at h ⊢
      cases h
      have hfr : a ∉ t.map Prod.fst := hpa ▸ nd.1
      rw [amodify_of_fresh _ hfr]
    · rw [if_neg hpa] at h ⊢
      rw [show amodify t a (fun _ => v) = aupdate t a v from rfl, ih nd.2 h]

theorem amodify_amodify_self {α : Type} (l : List (Nat × α)) (a : Nat) (f g : α → α) :
    amodify (amodify l a f) a g = amodify l a (fun x => g (f x)) := by
  induction l with
  | nil => rfl
  | cons p t ih =>
    by_cases hpa : p.1 = a <;> simp [amodify, hpa, ih]

theorem derefStar_congr {T : Type} {s : Heap T} {i j : Nat} {p q : SPH}
    (hi : alookup s.handles i = some p) (hj : alookup s.handles j = some q)
    (hpd : p.pData = q.pData) : derefStar s i = derefStar s j := by
  unfold derefStar
  rw [hi, hj]
  dsimp only
  rw [hpd]

/-- Assignment between two distinct live handles that already share a counter is a
complete no-op on the heap: the count is at least two, so the intermediate decrement
cannot reach zero, and copying the source's members back restores the target bit for
bit. -/
theorem assign_shared_binding {T : Type} {s : Heap T} (hI : Inv s) {p q : Nat}
    {psp qsp : SPH} (hp : alookup s.handles p = some psp)
    (hq : alookup s.handles q = some qsp) (hne : ¬ p = q)
    (href : psp.reference = qsp.reference) :
    spAssign s p q = some s ∧ 2 ≤ rcCount s.handles psp.reference := by
  have hge2 : 2 ≤ rcCount s.handles psp.reference :=
    rcCount_ge_two hp hq hne rfl href.symm
  cases hcv : alookup s.rcs psp.reference with
  | none => exact absurd (hI.refAlloc p psp hp) (by simp [hcv])
  | some c =>
  have hrc : c = (rcCount s.handles psp.reference : Int) := hI.counts _ _ hcv
  have hret : ¬ c - 1 = 0 := by omega
  have hpdeq : psp.pData = qsp.pData := hI.coh p psp q qsp hp hq href
  refine ⟨?_, hge2⟩
  rw [spAssign_eq_live hp hq hne hcv hret]
  have hrcs : amodify (aupdate s.rcs psp.reference (c - 1)) qsp.reference RC.AddRef
      = s.rcs := by
    rw [← href, aupdate, amodify_amodify_self]
    have hfn : (fun x : Int => RC.AddRef ((fun _ => c - 1) x)) = (fun _ : Int => c) := by
      funext x
      dsimp only [RC.AddRef]
      omega
    rw [hfn]
    exact aupdate_self hI.ndR hcv
  have hspq : (⟨qsp.pData, qsp.reference⟩ : SPH) = psp := by
    cases psp with
    | mk pd r =>
      dsimp only at hpdeq href
      rw [← hpdeq, ← href]
  have hhs : aupdate s.handles p ⟨qsp.pData, qsp.reference⟩ = s.handles := by
    rw [hspq]
    exact aupdate_self hI.ndH hp
  congr 1
  rw [hrcs, hhs]

theorem spWrite_eq {T : Type} {s : Heap T} {hid : Nat} {sp : SPH} {a : Nat} {w : T}
    (hs : alookup s.handles hid = some sp) (hpd : sp.pData = some a)
    (hva : alookup s.vals a = some w) (v : T) :
    spWrite s hid v = some { s with vals := aupdate s.vals a v } := by
  simp [spWrite, hs, hpd, hva]

theorem derefStar_unfold {T : Type} {s : Heap T} {i : Nat} {sp : SPH}
    (hi : alookup s.handles i = some sp) :
    derefStar s i = (match sp.pData with
                     | none => none
                     | some a => alookup s.vals a) := by
  unfold derefStar
  rw [hi]

theorem step_nextVal_mono {T : Type} {s s' : Heap T} {op : Op T}
    (h : step s op = some s') : s.nextVal ≤ s'.nextVal := by
  cases op with
  | newDefault =>
    cases h
    exact le_refl _
  | newFrom v =>
    cases h
    show s.nextVal ≤ (spFrom s v).nextVal
    dsimp only [spFrom, heapAddRef]
    omega
  | newCopy src =>
    simp only [step] at h
    cases hsp : alookup s.handles src with
    | none => simp [spCopy, hsp] at h
    | some sp =>
      rw [spCopy_eq hsp] at h
      cases h
      exact le_refl _
  | destroy hid =>
    simp only [step] at h
    cases hsp : alookup s.handles hid with
    | none => simp [spDestroy, hsp] at h
    | some sp =>
    cases hcv : alookup s.rcs sp.reference with
    | none => simp [spDestroy, hsp, heapRelease, hcv] at h
    | some c =>
    by_cases hret : c - 1 = 0
    · cases hpd : sp.pData with
      | none =>
        rw [spDestroy_eq_last_none hsp hcv hret hpd] at h
        cases h
        exact le_refl _
      | some a =>
        rw [spDestroy_eq_last_some hsp hcv hret hpd] at h
        cases h
        exact le_refl _
    · rw [spDestroy_eq_live hsp hcv hret] at h
      cases h
      exact le_refl _
  | assign tgt src =>
    simp only [step] at h
    cases htsp : alookup s.handles tgt with
    | none => simp [spAssign, htsp] at h
    | some tsp =>
    cases hssp : alookup s.handles src with
    | none => simp [spAssign, htsp, hssp] at h
    | some ssp =>
    by_cases hts : tgt = src
    · subst hts
      rw [spAssign_eq_self htsp] at h
      cases h
      exact le_refl _
    · cases hcv : alookup s.rcs tsp.reference with
      | none => simp [spAssign, htsp, hssp, hts, heapRelease, hcv] at h
      | some c =>
      by_cases hret : c - 1 = 0
      · cases hpd : tsp.pData with
        | none =>
          rw [spAssign_eq_last_none htsp hssp hts hcv hret hpd] at h
          cases h
          exact le_refl _
        | some a =>
          rw [spAssign_eq_last_some htsp hssp hts hcv hret hpd] at h
          cases h
          exact le_refl _
      · rw [spAssign_eq_live htsp hssp hts hcv hret] at h
        cases h
        exact le_refl _
  | write hid v =>
    simp only [step] at h
    cases hsp : alookup s.handles hid with
    | none => simp [spWrite, hsp] at h
    | some sp =>
    cases hpd : sp.pData with
    | none => simp [spWrite, hsp, hpd] at h
    | some a =>
    cases hva : alookup s.vals a with
    | none => simp [spWrite, hsp, hpd, hva] at h
    | some w =>
      rw [spWrite_eq hsp hpd hva v] at h
      cases h
      exact le_refl _

theorem run_nextVal_mono {T : Type} : ∀ (ops : List (Op T)) {s s' : Heap T},
    run s ops = some s' → s.nextVal ≤ s'.nextVal := by
  intro ops
  induction ops with
  | nil =>
    intro s s' h
    cases h
    exact le_refl _
  | cons op t ih =>
    intro s s' h
    simp only [run] at h
    cases hstep : step s op with
    | none =>
      rw [hstep] at h
      cases h
    | some s1 =>
      rw [hstep] at h
      exact le_trans (step_nextVal_mono hstep) (ih h)

/-- The only steps that add an address to the freed-values list are the destruction or
the reassignment-away of a live handle pointing at that address, and only when that
handle is the sole member of its counter group; after the step no live handle points at
the freed address. -/
theorem releaseTrigger {T : Type} {s s' : Heap T} {op : Op T} {a : Nat} (hI : Inv s)
    (hstep : step s op = some s') (hnot : a ∉ s.freedVals) (hmem : a ∈ s'.freedVals) :
    ∃ hid sp, alookup s.handles hid = some sp ∧ sp.pData = some a ∧
      rcCount s.handles sp.reference = 1 ∧
      (op = Op.destroy hid ∨ ∃ src, op = Op.assign hid src) ∧
      (∀ j q, alookup s'.handles j = some q → ¬ q.pData = some a) := by
  cases op with
  | newDefault =>
    cases hstep
    exact absurd hmem hnot
  | newFrom v =>
    cases hstep
    exact absurd hmem hnot
  | newCopy src =>
    simp only [step] at hstep
    cases hsp : alookup s.handles src with
    | none => simp [spCopy, hsp] at hstep
    | some sp =>
      rw [spCopy_eq hsp] at hstep
      cases hstep
      exact absurd hmem hnot
  | write hid v =>
    simp only [step] at hstep
    cases hsp : alookup s.handles hid with
    | none => simp [spWrite, hsp] at hstep
    | some sp =>
    cases hpd : sp.pData with
    | none => simp [spWrite, hsp, hpd] at hstep
    | some b =>
    cases hva : alookup s.vals b with
    | none => simp [spWrite, hsp, hpd, hva] at hstep
    | some w =>
      rw [spWrite_eq hsp hpd hva v] at hstep
      cases hstep
      exact absurd hmem hnot
  | destroy hid =>
    simp only [step] at hstep
    cases hsp : alookup s.handles hid with
    | none => simp [spDestroy, hsp] at hstep
    | some sp =>
    cases hcv : alookup s.rcs sp.reference with
    | none => simp [spDestroy, hsp, heapRelease, hcv] at hstep
    | some c =>
    have hrc : c = (rcCount s.handles sp.reference : Int) := hI.counts _ _ hcv
    by_cases hret : c - 1 = 0
    · cases hpd : sp.pData with
      | none =>
        rw [spDestroy_eq_last_none hsp hcv hret hpd] at hstep
        cases hstep
        exact absurd hmem hnot
      | some b =>
        rw [spDestroy_eq_last_some hsp hcv hret hpd] at hstep
        cases hstep
        have hab : a = b := by
          rcases List.mem_cons.1 hmem with h2 | h2
          · exact h2
          · exact absurd h2 hnot
        subst hab
        have hrc1 : rcCount s.handles sp.reference = 1 := by omega
        refine ⟨hid, sp, hsp, hpd, hrc1, Or.inl rfl, ?_⟩
        intro j q hj hqp
        dsimp only at hj
        rw [alookup_aerase] at hj
        by_cases hjh : j = hid
        · rw [if_pos hjh] at hj
          cases hj
        · rw [if_neg hjh] at hj
          have hqr : q.reference = sp.reference := hI.inj j q hid sp a hj hsp hqp hpd
          have := rcCount_ge_two hj hsp hjh hqr rfl
          omega
    · rw [spDestroy_eq_live hsp hcv hret] at hstep
      cases hstep
      exact absurd hmem hnot
  | assign tgt src =>
    simp only [step] at hstep
    cases htsp : alookup s.handles tgt with
    | none => simp [spAssign, htsp] at hstep
    | some tsp =>
    cases hssp : alookup s.handles src with
    | none => simp [spAssign, htsp, hssp] at hstep
    | some ssp =>
    by_cases hts : tgt = src
    · subst hts
      rw [spAssign_eq_self htsp] at hstep
      cases hstep
      exact absurd hmem hnot
    · cases hcv : alookup s.rcs tsp.reference with
      | none => simp [spAssign, htsp, hssp, hts, heapRelease, hcv] at hstep
      | some c =>
      have hrc : c = (rcCount s.handles tsp.reference : Int) := hI.counts _ _ hcv
      by_cases hret : c - 1 = 0
      · cases hpd : tsp.pData with
        | none =>
          rw [spAssign_eq_last_none htsp hssp hts hcv hret hpd] at hstep
          cases hstep
          exact absurd hmem hnot
        | some b =>
          rw [spAssign_eq_last_some htsp hssp hts hcv hret hpd] at hstep
          cases hstep
          have hab : a = b := by
            rcases List.mem_cons.1 hmem with h2 | h2
            · exact h2
            · exact absurd h2 hnot
          subst hab
          have hrc1 : rcCount s.handles tsp.reference = 1 := by omega
          refine ⟨tgt, tsp, htsp, hpd, hrc1, Or.inr ⟨src, rfl⟩, ?_⟩
          intro j q hj hqp
          dsimp only at hj
          rw [alookup_aupdate] at hj
          by_cases hjt : j = tgt
          · rw [if_pos hjt, htsp, Option.map_some'] at hj
            cases hj
            dsimp only at hqp
            have hsr : ssp.reference = tsp.reference :=
              hI.inj src ssp tgt tsp a hssp htsp hqp hpd
            have := rcCount_ge_two hssp htsp (fun hh => hts hh.symm) hsr rfl
            omega
          · rw [if_neg hjt] at hj
            have hqr : q.reference = tsp.reference := hI.inj j q tgt tsp a hj htsp hqp hpd
            have := rcCount_ge_two hj htsp hjt hqr rfl
            omega
      · rw [spAssign_eq_live htsp hssp hts hcv hret] at hstep
        cases hstep
        exact absurd hmem hnot

/-! ### The claims -/

/-- C6 counterexample: `RC::Release` called on a zero counter is not a fatal error and is
not surfaced in any way: it simply stores `-1` and returns the negative count `-1`,
continuing silently — exactly what the claim says does not happen. -/
theorem C6_counterexample :
    RC.Release 0 = (-1, -1) ∧ (RC.Release 0).2 < 0 ∧ (RC.Release 0).1 < 0 := by
  refine ⟨rfl, ?_, ?_⟩ <;> decide

/-- C6 (amended): the counter's decrement operation performs no underflow check of any
kind: for every count it stores and returns the decremented value, so on a zero counter
it silently stores and returns `-1` and continues. -/
theorem C6_release_no_underflow_check :
    (∀ c : Int, RC.Release c = (c - 1, c - 1)) ∧ RC.Release 0 = (-1, -1) :=
  ⟨fun _ => rfl, rfl⟩

/-- C5 counterexample: dereferencing the default-constructed empty handle that was never
reassigned.  The handle is live with a null `pData`; the source's `operator*` is
`return *pData;` with no check, so the access is a read through the null pointer with no
defined result (undefined behavior, `none` in this embedding) — not the deterministic
null-access contract-violation error the claim describes, which the spec-modelled checked
dereference (`derefCheckedSpec`) would return. -/
theorem C5_counterexample :
    alookup sAfterDefault.handles 0 = some ⟨none, 0⟩ ∧
    derefStar sAfterDefault 0 = none ∧
    derefCheckedSpec sAfterDefault 0 = some (Except.error NullFault.nullAccess) :=
  ⟨rfl, rfl, rfl⟩

/-- C5 (amended): dereferencing any live handle with no payload performs no null check:
the read goes through the null `pData` and has no defined result (undefined behavior in
the source language), whereas the spec's checked dereference would deterministically
return the null-access contract-violation error. -/
theorem C5_null_deref_unchecked {T : Type} {s : Heap T} {hid : Nat} {sp : SPH}
    (hs : alookup s.handles hid = some sp) (hn : sp.pData = none) :
    derefStar s hid = none ∧
    derefCheckedSpec s hid = some (Except.error NullFault.nullAccess) := by
  constructor
  · simp [derefStar, hs, hn]
  · simp [derefCheckedSpec, hs, hn]

theorem C5_null_deref_unchecked_witness :
    derefStar sAfterDefault 0 = none ∧
    derefCheckedSpec sAfterDefault 0 = some (Except.error NullFault.nullAccess) :=
  @C5_null_deref_unchecked Int sAfterDefault 0 ⟨none, 0⟩ rfl rfl

/-- C8: Scenario A.  Constructing a handle from a raw value allocates a fresh counter at
exactly 1; duplicating raises it to 2; destroying the duplicate brings it back to 1 with
the value still readable through the original; destroying the original releases the
value (its address appears in the freed list and its cell is gone). -/
theorem C8_scenario_construct_dup_destroy :
    (run (initial Int) [Op.newFrom 25]).bind (fun s => alookup s.rcs 0) = some 1 ∧
    (run (initial Int) [Op.newFrom 25, Op.newCopy 0]).bind (fun s => alookup s.rcs 0)
      = some 2 ∧
    (run (initial Int) [Op.newFrom 25, Op.newCopy 0, Op.destroy 1]).bind
      (fun s => alookup s.rcs 0) = some 1 ∧
    (run (initial Int) [Op.newFrom 25, Op.newCopy 0, Op.destroy 1]).bind
      (fun s => derefStar s 0) = some 25 ∧
    (run (initial Int) [Op.newFrom 25, Op.newCopy 0, Op.destroy 1]).map
      (fun s => s.freedVals) = some [] ∧
    (run (initial Int) [Op.newFrom 25, Op.newCopy 0, Op.destroy 1, Op.destroy 0]).map
      (fun s => s.freedVals) = some [0] ∧
    (run (initial Int) [Op.newFrom 25, Op.newCopy 0, Op.destroy 1, Op.destroy 0]).bind
      (fun s => alookup s.vals 0) = none :=
  ⟨rfl, rfl, rfl, rfl, rfl, rfl, rfl⟩

/-- C2: at every observable point of any operation sequence run from the empty heap,
every allocated shared counter stores exactly the number of live handles bound to it;
moreover each creation path (default construction, construction from a raw value,
duplication) ends by incrementing the counter it binds to, and the destruction path
decrements it (freeing the counter when the returned count reaches zero). -/
theorem C2_count_matches_live_handles {T : Type} (ops : List (Op T)) (s : Heap T)
    (h : run (initial T) ops = some s) :
    (∀ r c, alookup s.rcs r = some c → c = (rcCount s.handles r : Int)) ∧
    (alookup (spDefault s).rcs s.nextRC = some 1) ∧
    (∀ v, alookup (spFrom s v).rcs s.nextRC = some 1) ∧
    (∀ src sp s', alookup s.handles src = some sp → spCopy s src = some s' →
      ∀ c, alookup s.rcs sp.reference = some c →
        alookup s'.rcs sp.reference = some (RC.AddRef c)) ∧
    (∀ hid sp s', alookup s.handles hid = some sp → spDestroy s hid = some s' →
      ∀ c, alookup s.rcs sp.reference = some c →
        alookup s'.rcs sp.reference
          = if (RC.Release c).2 = 0 then none else some (RC.Release c).1) := by
  have hI := inv_reachable h
  have hfreshR : alookup s.rcs s.nextRC = none := alookup_of_bound hI.bR
  refine ⟨hI.counts, ?_, ?_, ?_, ?_⟩
  · rw [spDefault_eq s (not_mem_keys_of_alookup_none hfreshR)]
    dsimp only
    rw [alookup_cons, if_pos rfl]
  · intro v
    rw [spFrom_eq s v (not_mem_keys_of_alookup_none hfreshR)]
    dsimp only
    rw [alookup_cons, if_pos rfl]
  · intro src sp s' hsp hcopy c hcv
    rw [spCopy_eq hsp] at hcopy
    cases hcopy
    dsimp only
    rw [alookup_amodify, if_pos rfl, hcv, Option.map_some']
  · intro hid sp s' hsp hdes c hcv
    by_cases hret : c - 1 = 0
    · have hret2 : (RC.Release c).2 = 0 := hret
      rw [if_pos hret2]
      cases hpd : sp.pData with
      | none =>
        rw [spDestroy_eq_last_none hsp hcv hret hpd] at hdes
        cases hdes
        dsimp only
        rw [alookup_aerase, if_pos rfl]
      | some a =>
        rw [spDestroy_eq_last_some hsp hcv hret hpd] at hdes
        cases hdes
        dsimp only
        rw [alookup_aerase, if_pos rfl]
    · have hret2 : ¬ (RC.Release c).2 = 0 := hret
      rw [if_neg hret2]
      rw [spDestroy_eq_live hsp hcv hret] at hdes
      cases hdes
      dsimp only
      rw [alookup_aupdate, if_pos rfl, hcv, Option.map_some']
      rfl

theorem C2_count_matches_live_handles_witness :
    (2 : Int) = (rcCount sCopySeven.handles 0 : Int) :=
  (C2_count_matches_live_handles [Op.newFrom 7, Op.newCopy 0] sCopySeven rfl).1 0 2 rfl

/-- C9: `AddRef` unconditionally raises the count by one (no error conditions), `Release`
lowers it by one and returns the post-decrement value, and the two callers — the
destructor and the reassignment operator — free the counter (and, in the destructor, the
owned value) exactly when that returned value is zero. -/
theorem C9_counter_operations {T : Type} :
    (∀ c : Int, RC.AddRef c = c + 1) ∧
    (∀ c : Int, RC.Release c = (c - 1, c - 1)) ∧
    (∀ (s s' : Heap T) (hid : Nat) (sp : SPH) (c : Int),
      alookup s.handles hid = some sp → alookup s.rcs sp.reference = some c →
      spDestroy s hid = some s' →
      ((alookup s'.rcs sp.reference = none ↔ (RC.Release c).2 = 0) ∧
        ((RC.Release c).2 ≠ 0 → s'.freedVals = s.freedVals) ∧
        (∀ a, sp.pData = some a → (RC.Release c).2 = 0 →
          s'.freedVals = a :: s.freedVals))) ∧
    (∀ (s s' : Heap T) (tgt src : Nat) (tsp ssp : SPH) (c : Int),
      alookup s.handles tgt = some tsp → alookup s.handles src = some ssp →
      ¬ tgt = src → ¬ ssp.reference = tsp.reference →
      alookup s.rcs tsp.reference = some c → spAssign s tgt src = some s' →
      (alookup s'.rcs tsp.reference = none ↔ (RC.Release c).2 = 0)) := by
  refine ⟨fun _ => rfl, fun _ => rfl, ?_, ?_⟩
  · intro s s' hid sp c hsp hcv hdes
    by_cases hret : c - 1 = 0
    · have hret2 : (RC.Release c).2 = 0 := hret
      cases hpd : sp.pData with
      | none =>
        rw [spDestroy_eq_last_none hsp hcv hret hpd] at hdes
        cases hdes
        dsimp only
        refine ⟨?_, ?_, ?_⟩
        · rw [alookup_aerase, if_pos rfl]
          exact iff_of_true rfl hret2
        · intro hh
          exact absurd hret2 hh
        · intro a ha
          cases ha
      | some a =>
        rw [spDestroy_eq_last_some hsp hcv hret hpd] at hdes
        cases hdes
        dsimp only
        refine ⟨?_, ?_, ?_⟩
        · rw [alookup_aerase, if_pos rfl]
          exact iff_of_true rfl hret2
        · intro hh
          exact absurd hret2 hh
        · intro b hb h0
          cases hb
          rfl
    · have hret2 : ¬ (RC.Release c).2 = 0 := hret
      rw [spDestroy_eq_live hsp hcv hret] at hdes
      cases hdes
      dsimp only
      refine ⟨?_, fun _ => rfl, ?_⟩
      · rw [alookup_aupdate, if_pos rfl, hcv, Option.map_some']
        exact iff_of_false (by simp) hret2
      · intro a ha h0
        exact absurd h0 hret2
  · intro s s' tgt src tsp ssp c htsp hssp hts hrefs hcv hasg
    have hne : ¬ tsp.reference = ssp.reference := fun hh => hrefs hh.symm
    by_cases hret : c - 1 = 0
    · have hret2 : (RC.Release c).2 = 0 := hret
      cases hpd : tsp.pData with
      | none =>
        rw [spAssign_eq_last_none htsp hssp hts hcv hret hpd] at hasg
        cases hasg
        dsimp only
        rw [alookup_amodify, if_neg hne, alookup_aerase, if_pos rfl]
        exact iff_of_true rfl hret2
      | some a =>
        rw [spAssign_eq_last_some htsp hssp hts hcv hret hpd] at hasg
        cases hasg
        dsimp only
        rw [alookup_amodify, if_neg hne, alookup_aerase, if_pos rfl]
        exact iff_of_true rfl hret2
    · have hret2 : ¬ (RC.Release c).2 = 0 := hret
      rw [spAssign_eq_live htsp hssp hts hcv hret] at hasg
      cases hasg
      dsimp only
      rw [alookup_amodify, if_neg hne, alookup_aupdate, if_pos rfl, hcv, Option.map_some']
      exact iff_of_false (by simp) hret2

theorem C9_counter_operations_witness :
    alookup sOneFiveGone.rcs 0 = none ↔ (RC.Release 1).2 = 0 :=
  ((C9_counter_operations (T := Int)).2.2.1 sOneFive sOneFiveGone 0 ⟨some 0, 0⟩ 1
    rfl rfl rfl).1

/-- C4: reassignment is observably the spec's four-step algorithm — skip when target and
source share the identical binding, otherwise decrement the old counter (freeing value
and counter on zero), copy the source's value and counter pointers, and increment — and
in particular self-assignment `h = h` leaves the heap unchanged and triggers no
release. -/
theorem C4_assignment_steps {T : Type} (ops : List (Op T)) (s : Heap T)
    (h : run (initial T) ops = some s) :
    (∀ tgt src, spAssign s tgt src = assignSpec s tgt src) ∧
    (∀ hd, (alookup s.handles hd).isSome → spAssign s hd hd = some s) := by
  have hI := inv_reachable h
  constructor
  · intro tgt src
    cases htsp : alookup s.handles tgt with
    | none => simp [spAssign, assignSpec, htsp]
    | some tsp =>
    cases hssp : alookup s.handles src with
    | none => simp [spAssign, assignSpec, htsp, hssp]
    | some ssp =>
    by_cases hts : tgt = src
    · subst hts
      rw [htsp] at hssp
      cases hssp
      rw [spAssign_eq_self htsp]
      simp [assignSpec, htsp]
    · by_cases hrr : tsp.reference = ssp.reference
      · have hpdeq : tsp.pData = ssp.pData := hI.coh tgt tsp src ssp htsp hssp hrr
        rw [(assign_shared_binding hI htsp hssp hts hrr).1]
        simp [assignSpec, htsp, hssp, hpdeq, hrr]
      · simp [spAssign, assignSpec, htsp, hssp, hts, hrr]
  · intro hd hs
    cases hsp : alookup s.handles hd with
    | none =>
      rw [hsp] at hs
      simp at hs
    | some sp => exact spAssign_eq_self hsp

theorem C4_assignment_steps_witness :
    spAssign sTwoVals 0 0 = some sTwoVals ∧
    spAssign sTwoVals 0 1 = assignSpec sTwoVals 0 1 := by
  have h := C4_assignment_steps [Op.newFrom 1, Op.newFrom 2] sTwoVals rfl
  exact ⟨h.2 0 (by rfl), h.1 0 1⟩

/-- C10: for every pair of distinct live handles that already share the same binding, the
assignment leaves the whole heap unchanged (same binding, same counter value, same owned
value) and triggers no release, even though the code's guard compares handle addresses
(`this != &sp`) rather than bindings: the shared counter is at least 2 in this situation,
so the intermediate decrement cannot reach zero before the matching increment restores
it. -/
theorem C10_shared_binding_assign_noop {T : Type} (ops : List (Op T)) (s : Heap T)
    (h : run (initial T) ops = some s) (p q : Nat) (psp qsp : SPH)
    (hp : alookup s.handles p = some psp) (hq : alookup s.handles q = some qsp)
    (hne : ¬ p = q) (href : psp.reference = qsp.reference)
    (hpd : psp.pData = qsp.pData) :
    spAssign s p q = some s ∧ 2 ≤ rcCount s.handles psp.reference :=
  assign_shared_binding (inv_reachable h) hp hq hne href

theorem C10_shared_binding_assign_noop_witness :
    spAssign sTwoShared 0 1 = some sTwoShared ∧ 2 ≤ rcCount sTwoShared.handles 0 :=
  C10_shared_binding_assign_noop [Op.newFrom 5, Op.newCopy 0] sTwoShared rfl 0 1
    ⟨some 0, 0⟩ ⟨some 0, 0⟩ rfl rfl (by decide) rfl rfl

/-- C3: after reassigning `tgt` to `src`'s (different) binding, `tgt` is observably a
duplicate of `src` made at that instant (same value pointer, same counter); the source
counter is incremented; `tgt`'s previous binding is released — counter freed, owned value
recorded as freed — if and only if `tgt` was its sole remaining owner (its counter group
had exactly one live handle); and both handles dereference to the source's value, which
is unchanged. -/
theorem C3_reassignment {T : Type} (ops : List (Op T)) (s : Heap T)
    (h : run (initial T) ops = some s) (tgt src : Nat) (tsp ssp : SPH)
    (htsp : alookup s.handles tgt = some tsp) (hssp : alookup s.handles src = some ssp)
    (hts : ¬ tgt = src) (hrr : ¬ tsp.reference = ssp.reference) :
    ∃ s', spAssign s tgt src = some s' ∧
      alookup s'.handles tgt = some ⟨ssp.pData, ssp.reference⟩ ∧
      alookup s'.handles src = some ssp ∧
      (∀ c, alookup s.rcs ssp.reference = some c →
        alookup s'.rcs ssp.reference = some (c + 1)) ∧
      (alookup s'.rcs tsp.reference = none ↔ rcCount s.handles tsp.reference = 1) ∧
      (∀ a, tsp.pData = some a →
        (a ∈ s'.freedVals ↔ rcCount s.handles tsp.reference = 1)) ∧
      derefStar s' tgt = derefStar s' src ∧
      derefStar s' src = derefStar s src := by
  have hI := inv_reachable h
  have hrefs : ¬ ssp.reference = tsp.reference := fun hh => hrr hh.symm
  have hst : ¬ src = tgt := fun hh => hts hh.symm
  cases hcv : alookup s.rcs tsp.reference with
  | none => exact absurd (hI.refAlloc tgt tsp htsp) (by simp [hcv])
  | some c =>
  have hrc : c = (rcCount s.handles tsp.reference : Int) := hI.counts _ _ hcv
  have hpos : 0 < rcCount s.handles tsp.reference := rcCount_pos htsp rfl
  by_cases hret : c - 1 = 0
  case neg =>
    have hrc1 : ¬ rcCount s.handles tsp.reference = 1 := by omega
    refine ⟨_, spAssign_eq_live htsp hssp hts hcv hret, ?_, ?_, ?_, ?_, ?_, ?_, ?_⟩
    · dsimp only
      rw [alookup_aupdate, if_pos rfl, htsp, Option.map_some']
    · dsimp only
      rw [alookup_aupdate, if_neg hst]
      exact hssp
    · intro c0 hcs
      dsimp only
      rw [alookup_amodify, if_pos rfl, alookup_aupdate, if_neg hrefs, hcs,
        Option.map_some']
      rfl
    · dsimp only
      rw [alookup_amodify, if_neg hrr, alookup_aupdate, if_pos rfl, hcv,
        Option.map_some']
      exact iff_of_false (by simp) hrc1
    · intro a ha
      dsimp only
      have hanf : a ∉ s.freedVals := by
        intro hmem
        have := hI.pAlloc tgt tsp htsp a ha
        rw [hI.freedDead a hmem] at this
        simp at this
      exact iff_of_false hanf hrc1
    · have h1 : alookup (aupdate s.handles tgt
          (⟨ssp.pData, ssp.reference⟩ : SPH)) tgt = some ⟨ssp.pData, ssp.reference⟩ := by
        rw [alookup_aupdate, if_pos rfl, htsp, Option.map_some']
      have h2 : alookup (aupdate s.handles tgt
          (⟨ssp.pData, ssp.reference⟩ : SPH)) src = some ssp := by
        rw [alookup_aupdate, if_neg hst]
        exact hssp
      exact derefStar_congr h1 h2 rfl
    · have hlsrc : alookup (aupdate s.handles tgt
          (⟨ssp.pData, ssp.reference⟩ : SPH)) src = some ssp := by
        rw [alookup_aupdate, if_neg hst]
        exact hssp
      rw [derefStar_unfold hlsrc, derefStar_unfold hssp]
  case pos =>
    have hrc1 : rcCount s.handles tsp.reference = 1 := by omega
    cases hpd : tsp.pData with
    | none =>
      refine ⟨_, spAssign_eq_last_none htsp hssp hts hcv hret hpd, ?_, ?_, ?_, ?_, ?_,
        ?_, ?_⟩
      · dsimp only
        rw [alookup_aupdate, if_pos rfl, htsp, Option.map_some']
      · dsimp only
        rw [alookup_aupdate, if_neg hst]
        exact hssp
      · intro c0 hcs
        dsimp only
        rw [alookup_amodify, if_pos rfl, alookup_aerase, if_neg hrefs, hcs,
          Option.map_some']
        rfl
      · dsimp only
        rw [alookup_amodify, if_neg hrr, alookup_aerase, if_pos rfl]
        exact iff_of_true rfl hrc1
      · intro a ha
        cases ha
      · have h1 : alookup (aupdate s.handles tgt
            (⟨ssp.pData, ssp.reference⟩ : SPH)) tgt = some ⟨ssp.pData, ssp.reference⟩ := by
          rw [alookup_aupdate, if_pos rfl, htsp, Option.map_some']
        have h2 : alookup (aupdate s.handles tgt
            (⟨ssp.pData, ssp.reference⟩ : SPH)) src = some ssp := by
          rw [alookup_aupdate, if_neg hst]
          exact hssp
        exact derefStar_congr h1 h2 rfl
      · have hlsrc : alookup (aupdate s.handles tgt
            (⟨ssp.pData, ssp.reference⟩ : SPH)) src = some ssp := by
          rw [alookup_aupdate, if_neg hst]
          exact hssp
        rw [derefStar_unfold hlsrc, derefStar_unfold hssp]
    | some a =>
      refine ⟨_, spAssign_eq_last_some htsp hssp hts hcv hret hpd, ?_, ?_, ?_, ?_, ?_,
        ?_, ?_⟩
      · dsimp only
        rw [alookup_aupdate, if_pos rfl, htsp, Option.map_some']
      · dsimp only
        rw [alookup_aupdate, if_neg hst]
        exact hssp
      · intro c0 hcs
        dsimp only
        rw [alookup_amodify, if_pos rfl, alookup_aerase, if_neg hrefs, hcs,
          Option.map_some']
        rfl
      · dsimp only
        rw [alookup_amodify, if_neg hrr, alookup_aerase, if_pos rfl]
        exact iff_of_true rfl hrc1
      · intro b hb
        cases hb
        dsimp only
        exact iff_of_true (List.mem_cons_self a s.freedVals) hrc1
      · have h1 : alookup (aupdate s.handles tgt
            (⟨ssp.pData, ssp.reference⟩ : SPH)) tgt = some ⟨ssp.pData, ssp.reference⟩ := by
          rw [alookup_aupdate, if_pos rfl, htsp, Option.map_some']
        have h2 : alookup (aupdate s.handles tgt
            (⟨ssp.pData, ssp.reference⟩ : SPH)) src = some ssp := by
          rw [alookup_aupdate, if_neg hst]
          exact hssp
        exact derefStar_congr h1 h2 rfl
      · have hlsrc : alookup (aupdate s.handles tgt
            (⟨ssp.pData, ssp.reference⟩ : SPH)) src = some ssp := by
          rw [alookup_aupdate, if_neg hst]
          exact hssp
        rw [derefStar_unfold hlsrc, derefStar_unfold hssp]
        cases hsd : ssp.pData with
        | none => rfl
        | some b =>
          have hba : ¬ b = a := by
            intro hba2
            subst hba2
            exact hrr (hI.inj tgt tsp src ssp b htsp hssp hpd hsd)
          show alookup (aerase s.vals a) b = alookup s.vals b
          rw [alookup_aerase, if_neg hba]

theorem C3_reassignment_witness :
    ∃ s', spAssign sTwoVals 0 1 = some s' ∧
      alookup s'.handles 0 = some ⟨some 1, 1⟩ ∧
      alookup s'.handles 1 = some ⟨some 1, 1⟩ ∧
      (∀ c, alookup sTwoVals.rcs 1 = some c → alookup s'.rcs 1 = some (c + 1)) ∧
      (alookup s'.rcs 0 = none ↔ rcCount sTwoVals.handles 0 = 1) ∧
      (∀ a, (some 0 : Option Nat) = some a →
        (a ∈ s'.freedVals ↔ rcCount sTwoVals.handles 0 = 1)) ∧
      derefStar s' 0 = derefStar s' 1 ∧
      derefStar s' 1 = derefStar sTwoVals 1 :=
  C3_reassignment [Op.newFrom 1, Op.newFrom 2] sTwoVals rfl 0 1 ⟨some 0, 0⟩
    ⟨some 1, 1⟩ rfl rfl (by decide) (by decide)

/-- C7: after duplicating the handle `p` (the duplicate gets id `s.nextH`), both handles
are bound to the very same value cell and counter; dereferencing either yields the same
state; a write through either handle is read back through both; and either handle can be
destroyed first while the other stays live with the value intact. -/
theorem C7_duplication {T : Type} (ops : List (Op T)) (s : Heap T)
    (h : run (initial T) ops = some s) (p : Nat) (psp : SPH)
    (hp : alookup s.handles p = some psp) (s' : Heap T)
    (hcopy : spCopy s p = some s') :
    alookup s'.handles s.nextH = some psp ∧
    alookup s'.handles p = some psp ∧
    derefStar s' s.nextH = derefStar s' p ∧
    derefStar s' p = derefStar s p ∧
    (∀ v s2, spWrite s' p v = some s2 →
      derefStar s2 s.nextH = some v ∧ derefStar s2 p = some v) ∧
    (∀ v s2, spWrite s' s.nextH v = some s2 →
      derefStar s2 p = some v ∧ derefStar s2 s.nextH = some v) ∧
    (∃ s2, spDestroy s' s.nextH = some s2 ∧ alookup s2.handles p = some psp ∧
      derefStar s2 p = derefStar s p) ∧
    (∃ s2, spDestroy s' p = some s2 ∧ alookup s2.handles s.nextH = some psp ∧
      derefStar s2 s.nextH = derefStar s p) := by
  have hI := inv_reachable h
  have hplt : p < s.nextH := hI.bH p (by simp [hp])
  have hpne : ¬ s.nextH = p := by omega
  have hpne2 : ¬ p = s.nextH := by omega
  rw [spCopy_eq hp] at hcopy
  cases hcopy
  have h1 : alookup ((s.nextH, psp) :: s.handles) s.nextH = some psp := by
    rw [alookup_cons, if_pos rfl]
  have h2 : alookup ((s.nextH, psp) :: s.handles) p = some psp := by
    rw [alookup_cons, if_neg hpne]
    exact hp
  cases hcq : alookup s.rcs psp.reference with
  | none => exact absurd (hI.refAlloc p psp hp) (by simp [hcq])
  | some c =>
  have hrcc : c = (rcCount s.handles psp.reference : Int) := hI.counts _ _ hcq
  have hposc : 0 < rcCount s.handles psp.reference := rcCount_pos hp rfl
  have hret : ¬ RC.AddRef c - 1 = 0 := by
    dsimp only [RC.AddRef]
    omega
  refine ⟨h1, h2, derefStar_congr h1 h2 rfl, ?_, ?_, ?_, ?_, ?_⟩
  · rw [derefStar_unfold h2, derefStar_unfold hp]
  · intro v s2 hw
    cases hpd : psp.pData with
    | none => simp [spWrite, alookup_cons, hpne, hp, hpd] at hw
    | some a =>
      cases hva : alookup s.vals a with
      | none => simp [spWrite, alookup_cons, hpne, hp, hpd, hva] at hw
      | some w =>
        rw [@spWrite_eq T ⟨s.vals, amodify s.rcs psp.reference RC.AddRef,
          (s.nextH, psp) :: s.handles, s.nextVal, s.nextRC, s.nextH + 1,
          s.freedVals⟩ p psp a w h2 hpd hva v] at hw
        cases hw
        constructor
        · simp [derefStar, alookup_cons, hpd, alookup_aupdate, hva]
        · simp [derefStar, alookup_cons, hpne, hp, hpd, alookup_aupdate, hva]
  · intro v s2 hw
    cases hpd : psp.pData with
    | none => simp [spWrite, alookup_cons, hpd] at hw
    | some a =>
      cases hva : alookup s.vals a with
      | none => simp [spWrite, alookup_cons, hpd, hva] at hw
      | some w =>
        rw [@spWrite_eq T ⟨s.vals, amodify s.rcs psp.reference RC.AddRef,
          (s.nextH, psp) :: s.handles, s.nextVal, s.nextRC, s.nextH + 1,
          s.freedVals⟩ s.nextH psp a w h1 hpd hva v] at hw
        cases hw
        constructor
        · simp [derefStar, alookup_cons, hpne, hp, hpd, alookup_aupdate, hva]
        · simp [derefStar, alookup_cons, hpd, alookup_aupdate, hva]
  · -- destroy the duplicate first
    have hLrc : alookup (amodify s.rcs psp.reference RC.AddRef) psp.reference
        = some (RC.AddRef c) := by
      rw [alookup_amodify, if_pos rfl, hcq, Option.map_some']
    refine ⟨_, spDestroy_eq_live h1 hLrc hret, ?_, ?_⟩
    · dsimp only
      rw [alookup_aerase, if_neg hpne2]
      exact h2
    · simp [derefStar, alookup_aerase, hpne2, alookup_cons, hpne, hp]
  · -- destroy the original first
    have hLrc : alookup (amodify s.rcs psp.reference RC.AddRef) psp.reference
        = some (RC.AddRef c) := by
      rw [alookup_amodify, if_pos rfl, hcq, Option.map_some']
    refine ⟨_, spDestroy_eq_live h2 hLrc hret, ?_, ?_⟩
    · dsimp only
      rw [alookup_aerase, if_neg hpne]
      exact h1
    · simp [derefStar, alookup_aerase, hpne, alookup_cons, hp]

theorem C7_duplication_witness :
    alookup sOneCopy.handles 1 = some ⟨some 0, 0⟩ ∧
    alookup sOneCopy.handles 0 = some ⟨some 0, 0⟩ ∧
    derefStar sOneCopy 1 = derefStar sOneCopy 0 ∧
    derefStar sOneCopy 0 = derefStar sOne 0 ∧
    (∀ v s2, spWrite sOneCopy 0 v = some s2 →
      derefStar s2 1 = some v ∧ derefStar s2 0 = some v) ∧
    (∀ v s2, spWrite sOneCopy 1 v = some s2 →
      derefStar s2 0 = some v ∧ derefStar s2 1 = some v) ∧
    (∃ s2, spDestroy sOneCopy 1 = some s2 ∧ alookup s2.handles 0 = some ⟨some 0, 0⟩ ∧
      derefStar s2 0 = derefStar sOne 0) ∧
    (∃ s2, spDestroy sOneCopy 0 = some s2 ∧ alookup s2.handles 1 = some ⟨some 0, 0⟩ ∧
      derefStar s2 1 = derefStar sOne 0) :=
  C7_duplication [Op.newFrom 3] sOne rfl 0 ⟨some 0, 0⟩ rfl sOneCopy rfl

/-- C1: starting from a single handle owning one value (allocated at heap address 0),
along every subsequent operation sequence the owned value is released at most once; it
remains allocated exactly while some live handle is bound to it, and it has been released
exactly when no such handle remains; and the step performing the release is the
destruction (or reassignment away) of the last surviving handle of the value's counter
group — after that step no live handle points at the value, regardless of the order in
which handles were destroyed. -/
theorem C1_single_release {T : Type} (v : T) (ops : List (Op T)) (s : Heap T)
    (h : run (initial T) (Op.newFrom v :: ops) = some s) :
    natCount s.freedVals 0 ≤ 1 ∧
    ((alookup s.vals 0).isSome ↔
      ∃ i sp, alookup s.handles i = some sp ∧ sp.pData = some 0) ∧
    (0 ∈ s.freedVals ↔
      ¬ ∃ i sp, alookup s.handles i = some sp ∧ sp.pData = some 0) ∧
    (∀ (ops1 : List (Op T)) (s1 s2 : Heap T) (op : Op T),
      run (initial T) (Op.newFrom v :: ops1) = some s1 → step s1 op = some s2 →
      0 ∉ s1.freedVals → 0 ∈ s2.freedVals →
      ∃ hid sp, alookup s1.handles hid = some sp ∧ sp.pData = some 0 ∧
        rcCount s1.handles sp.reference = 1 ∧
        (op = Op.destroy hid ∨ ∃ src, op = Op.assign hid src) ∧
        (∀ j q, alookup s2.handles j = some q → ¬ q.pData = some 0)) := by
  have hI := inv_reachable h
  have hnv : 0 < s.nextVal := by
    have h0 : run (spFrom (initial T) v) ops = some s := h
    have h1 := run_nextVal_mono ops h0
    have h2 : (spFrom (initial T) v).nextVal = 1 := rfl
    omega
  refine ⟨hI.freedOnce 0, ?_, ?_, ?_⟩
  · constructor
    · exact hI.valLive 0
    · rintro ⟨i, sp, hi, hp⟩
      exact hI.pAlloc i sp hi 0 hp
  · constructor
    · rintro hf ⟨i, sp, hi, hp⟩
      have h2 := hI.pAlloc i sp hi 0 hp
      rw [hI.freedDead 0 hf] at h2
      simp at h2
    · intro hno
      rcases hI.valFate 0 hnv with h2 | h2
      · exact absurd (hI.valLive 0 h2) hno
      · exact h2
  · intro ops1 s1 s2 op hrun1 hstep hn hm
    exact releaseTrigger (inv_reachable hrun1) hstep hn hm

theorem C1_single_release_witness :
    natCount sOneNine.freedVals 0 ≤ 1 ∧
    ((alookup sOneNine.vals 0).isSome ↔
      ∃ i sp, alookup sOneNine.handles i = some sp ∧ sp.pData = some 0) ∧
    (0 ∈ sOneNine.freedVals ↔
      ¬ ∃ i sp, alookup sOneNine.handles i = some sp ∧ sp.pData = some 0) ∧
    (∀ (ops1 : List (Op Int)) (s1 s2 : Heap Int) (op : Op Int),
      run (initial Int) (Op.newFrom 9 :: ops1) = some s1 → step s1 op = some s2 →
      0 ∉ s1.freedVals → 0 ∈ s2.freedVals →
      ∃ hid sp, alookup s1.handles hid = some sp ∧ sp.pData = some 0 ∧
        rcCount s1.handles sp.reference = 1 ∧
        (op = Op.destroy hid ∨ ∃ src, op = Op.assign hid src) ∧
        (∀ j q, alookup s2.handles j = some q → ¬ q.pData = some 0)) :=
  C1_single_release 9 [Op.destroy 0] sOneNine rfl

end SmartPointer
